import Mathlib

/-!
Verification of the Ankibot ingestion/orchestration pipeline against its
specification.  The Python source is shallowly embedded: pure functions
become Lean functions, exceptions become `Except`, and calls into external
libraries (the GenAI endpoint, `tiktoken`, `fuzzywuzzy`, `json`) become
explicit functional parameters.
-/

namespace Ankibot



/-! ## Python string primitives

Executable models of the Python string methods the pipeline uses
(ASCII semantics, which is what the repository's data exercises). -/

/-- Python `str.strip()`. -/
def pyStrip (s : String) : String :=
  String.mk (((s.data.dropWhile Char.isWhitespace).reverse.dropWhile
    Char.isWhitespace).reverse)

/-- Python `str.lower()`. -/
def pyLower (s : String) : String :=
  String.mk (s.data.map Char.toLower)

/-! ## Facts and deduplication (`ankibot/utils.py`, `deduplicate_facts`) -/

/-- A fact dictionary as produced by JSON parsing: every field may be
absent (`none`), mirroring Python's `dict.get`. -/
structure FactDict where
  topic : Option String := none
  subtopic : Option String := none
  fact : Option String := none
  source : Option String := none
deriving DecidableEq, Repr

/-- The dedup key: `f.get("fact", "").strip().lower()`. -/
def factKey (f : FactDict) : String :=
  pyLower (pyStrip (f.fact.getD ""))

/-- Loop body of `deduplicate_facts`: `seen` is the set of keys already
emitted; a fact is kept when its key is truthy (non-empty) and unseen. -/
def dedupGo : List FactDict → List String → List FactDict
  | [], _ => []
  | f :: rest, seen =>
    let key := factKey f
    if key ≠ "" ∧ key ∉ seen then
      f :: dedupGo rest (key :: seen)
    else
      dedupGo rest seen

/-- Source function `deduplicate_facts` from `ankibot/utils.py`. -/
def deduplicate_facts (facts : List FactDict) : List FactDict :=
  dedupGo facts []

/-! ## Model Gateway retry loop (`ankibot/backend.py`, `FlashcardBackend._gen`)

The body of one attempt (the `_call` closure, including response
validation) is abstracted as `call : Nat → Except PyErr String`; `PyErr`
distinguishes the two exception classes the source catches in two
textually identical handlers.  Backoff delays are the exact powers of two
the source's float arithmetic produces, recorded as naturals. -/

deriving instance DecidableEq for Except

/-- The two exception classes caught by `_gen`'s retry loop. -/
inductive PyErr where
  | internalServerError (msg : String)
  | otherException (msg : String)
deriving DecidableEq, Repr

/-- The `RuntimeError` raised after retries are exhausted: it carries the
last underlying error and the original prompt. -/
structure TerminalErr where
  lastErr : Option PyErr
  prompt : String
deriving DecidableEq, Repr

/-- Observable outcome of `_gen`: final result, number of calls made to
the underlying model, and the sequence of backoff sleeps (seconds). -/
structure GenOut where
  result : Except TerminalErr String
  calls : Nat
  sleeps : List Nat
deriving DecidableEq, Repr

/-- The `for attempt in range(max_retries + 1)` loop of `_gen`: on any
exception record it as `last_err`, sleep `delay`, double `delay`, retry;
both exception classes are handled identically. -/
def genAux (call : Nat → Except PyErr String) (prompt : String) :
    Nat → Nat → Nat → Option PyErr → GenOut
  | 0, _, _, lastErr => ⟨.error ⟨lastErr, prompt⟩, 0, []⟩
  | fuel + 1, i, delay, _ =>
    match call i with
    | .ok s => ⟨.ok s, 1, []⟩
    | .error e =>
      let rest := genAux call prompt fuel (i + 1) (delay * 2) (some e)
      ⟨rest.result, rest.calls + 1, delay :: rest.sleeps⟩

/-- Source method `FlashcardBackend._gen`: `max_retries, delay = 7, 1.0`, so 8 total
attempts starting at attempt index 0 with delay 1. -/
def gen (call : Nat → Except PyErr String) (prompt : String) : GenOut :=
  genAux call prompt 8 0 1 none

/-! ## Tokenized chunker (`ankibot/utils.py`, `chunk_text`)

The `tiktoken` encoder is external; `chunk_text` is embedded
polymorphically over a token type `τ` with abstract `tok`/`detok`
functions.  Python's `text.split("\n\n")` is modelled by an executable
splitter on the two-newline separator. -/

/-- Python `text.split("\x5cn\x5cn")` on the character list (left-to-right,
non-overlapping). -/
def splitTwoNl : List Char → List Char → List (List Char)
  | [], acc => [acc.reverse]
  | '\n' :: '\n' :: cs, acc => acc.reverse :: splitTwoNl cs []
  | c :: cs, acc => splitTwoNl cs (c :: acc)

/-- Python `text.split("\x5cn\x5cn")` as strings. -/
def pySplit2NL (s : String) : List String :=
  (splitTwoNl s.data []).map String.mk

/-- Helper `last_n` from `chunk_text`: `tokens[-n:] if n > 0 and len(tokens) > n
else tokens[:]`. -/
def lastN {τ : Type} (tokens : List τ) (n : Nat) : List τ :=
  if 0 < n ∧ n < tokens.length then tokens.drop (tokens.length - n) else tokens

/-- Window loop of `split_long_tokens`: windows `tokens[i : i + win]`
advancing by `stride = max(1, win - ovlp)`, stopping with the window that
reaches the end.  The fuel argument (instantiated with `tokens.length`,
an upper bound on the iteration count since `i` grows by at least 1)
keeps the recursion structural. -/
def splitLongGo {τ : Type} (tokens : List τ) (win ovlp : Nat) :
    Nat → Nat → List (List τ)
  | _, 0 => []
  | i, fuel + 1 =>
    if i < tokens.length then
      let part := (tokens.drop i).take win
      if tokens.length ≤ i + win then [part]
      else part :: splitLongGo tokens win ovlp (i + max 1 (win - ovlp)) fuel
    else []

/-- Helper `split_long_tokens` from `chunk_text`. -/
def split_long_tokens {τ : Type} (tokens : List τ) (win ovlp : Nat) :
    List (List τ) :=
  if tokens.isEmpty then [] else splitLongGo tokens win ovlp 0 tokens.length

/-- One iteration of the paragraph loop of `chunk_text`; the state is the
pair (chunks so far, accumulation buffer). -/
def chunkStep {τ : Type} (tok : String → List τ) (detok : List τ → String)
    (max_tokens ovl : Nat) (sep : List τ) (st : List String × List τ)
    (p : String) : List String × List τ :=
  let pt := tok p
  if max_tokens < pt.length then
    let flushed := if st.2.isEmpty then st.1 else st.1 ++ [pyStrip (detok st.2)]
    (flushed ++ (split_long_tokens pt max_tokens ovl).map
        (fun w => pyStrip (detok w)), [])
  else
    let addLen := pt.length + sep.length
    if st.2.isEmpty = false ∧ max_tokens < st.2.length + addLen then
      (st.1 ++ [pyStrip (detok st.2)], lastN st.2 ovl ++ pt ++ sep)
    else
      (st.1, st.2 ++ pt ++ sep)

/-- Source function `chunk_text` from `ankibot/utils.py`: overlap clamped to
`max(0, min(overlap, max_tokens // 2))`, paragraph split on blank lines,
long paragraphs force-split into token windows, normal paragraphs
accumulated into a buffer that is flushed when it would overflow and
reseeded with its last `overlap` tokens. -/
def chunk_text {τ : Type} (tok : String → List τ) (detok : List τ → String)
    (text : String) (max_tokens overlap : Nat) : List String :=
  let ovl := min overlap (max_tokens / 2)
  let sep := tok "\n\n"
  let paragraphs := ((pySplit2NL text).map pyStrip).filter (fun p => p ≠ "")
  let st := paragraphs.foldl (chunkStep tok detok max_tokens ovl sep) ([], [])
  if st.2.isEmpty then st.1 else st.1 ++ [pyStrip (detok st.2)]

/-- Helper tokenizer for concrete chunker evaluations: one token per
character. -/
def charTok (s : String) : List Char := s.data

/-- Inverse of `charTok`. -/
def charDetok (ts : List Char) : String := String.mk ts

/-! ## Verifier / reconciler (`ankibot/backend.py`, `FlashcardBackend.verify_csv`)

CSV parsing (the `csv` module) and the two `fuzzywuzzy` similarity
functions are external and appear as parameters; the reconciliation
itself is embedded in full.  Python `IndexError`/`TypeError` raised by
row subscripts become an `Except` error; the classification records the
function logs are returned alongside the final string so they can be
reasoned about. -/

/-- Rows as produced by `csv.reader`: a list of field strings. -/
abbrev Row := List String

/-- Card identity key (Topic, Subtopic, Question). -/
abbrev CKey := String × String × String

/-- Exceptions that can escape `verify_csv`: a row subscript out of
range, subscripting `None`, or the gateway `RuntimeError` propagating. -/
inductive VErr where
  | indexError
  | typeError
  | gateway (msg : String)
deriving DecidableEq, Repr

/-- Python `row[i]`: `IndexError` when out of range. -/
def getIdx (r : Row) (i : Nat) : Except VErr String :=
  if h : i < r.length then .ok r[i] else .error .indexError

/-- Helper `card_key`: `(row[0], row[1], row[2]) if len(row) >= 3 else
None`. -/
def card_key (r : Row) : Option CKey :=
  if 3 ≤ r.length then some (r.getD 0 "", r.getD 1 "", r.getD 2 "") else none

/-- Python-dict insertion: an existing key keeps its position and gets
the new value, a new key is appended. -/
def insertOD (d : List (CKey × Row)) (k : CKey) (v : Row) :
    List (CKey × Row) :=
  match d with
  | [] => [(k, v)]
  | (k', v') :: t => if k' = k then (k', v) :: t else (k', v') :: insertOD t k v

/-- Lookup in the ordered dict. -/
def lookupOD (d : List (CKey × Row)) (k : CKey) : Option Row :=
  match d with
  | [] => none
  | (k', v) :: t => if k' = k then some v else lookupOD t k

/-- Builds `{card_key(row): row for row in cards if card_key(row)}`. -/
def buildDict (rows : List Row) : List (CKey × Row) :=
  rows.foldl
    (fun d r =>
      match card_key r with
      | some k => insertOD d k r
      | none => d) []

/-- Python `headers = next(csv_reader, None); if headers: cards = rest`:
an absent or falsy (empty) header row leaves the card list empty. -/
def dropHeader (rows : List Row) : List Row :=
  match rows with
  | [] => []
  | h :: t => if h.isEmpty then [] else t

/-- Scan helper for `normalize_text`: finds the first `\x5c)` closing
marker not separated by a newline (the regex is not DOTALL), returning
the suffix after it. -/
def findMathClose : List Char → Option (List Char)
  | [] => none
  | '\\' :: ')' :: rest => some rest
  | '\n' :: _ => none
  | _ :: rest => findMathClose rest

/-- Replacement loop for `re.sub(r'\x5c\x5c\x5c(.*?\x5c\x5c\x5c)', 'MATH', ·)`:
every non-greedy `\x5c( … \x5c)` span becomes the placeholder `MATH`.  The
fuel (instantiated with the list length, an upper bound on the steps)
keeps the recursion structural. -/
def latexSubGo : Nat → List Char → List Char
  | 0, cs => cs
  | _ + 1, [] => []
  | fuel + 1, '\\' :: '(' :: rest =>
    (match findMathClose rest with
     | some rest' => 'M' :: 'A' :: 'T' :: 'H' :: latexSubGo fuel rest'
     | none => '\\' :: latexSubGo fuel ('(' :: rest))
  | fuel + 1, c :: cs => c :: latexSubGo fuel cs

/-- Helper `normalize_text` from `verify_csv`: lowercase, strip, collapse
LaTeX inline math to `MATH`, then delete the characters `. , ? !`. -/
def normalize_text (text : String) : String :=
  let t := pyStrip (pyLower text)
  let subbed := latexSubGo t.data.length t.data
  String.mk (subbed.filter (fun c => !(c = '.' ∨ c = ',' ∨ c = '?' ∨ c = '!')))

/-- A rewritten-card record: (original row, verified row, changed
fields, similarity score). -/
abbrev RewriteRec := Row × Row × List String × ℚ

/-- Changed-field detection of the exact-match path (Answer, Source,
Details — columns 3, 4, 5). -/
def changed345 (o v : Row) : Except VErr (List String) := do
  let o3 ← getIdx o 3
  let v3 ← getIdx v 3
  let o4 ← getIdx o 4
  let v4 ← getIdx v 4
  let o5 ← getIdx o 5
  let v5 ← getIdx v 5
  return (if o3 ≠ v3 then ["Answer"] else []) ++
    (if o4 ≠ v4 then ["Source"] else []) ++
    (if o5 ≠ v5 then ["Details"] else [])

/-- Changed-field detection of the fuzzy path (all 6 columns). -/
def changedAll6 (o v : Row) : Except VErr (List String) := do
  let o0 ← getIdx o 0
  let v0 ← getIdx v 0
  let o1 ← getIdx o 1
  let v1 ← getIdx v 1
  let o2 ← getIdx o 2
  let v2 ← getIdx v 2
  let o3 ← getIdx o 3
  let v3 ← getIdx v 3
  let o4 ← getIdx o 4
  let v4 ← getIdx v 4
  let o5 ← getIdx o 5
  let v5 ← getIdx v 5
  return (if o0 ≠ v0 then ["Topic"] else []) ++
    (if o1 ≠ v1 then ["Subtopic"] else []) ++
    (if o2 ≠ v2 then ["Question"] else []) ++
    (if o3 ≠ v3 then ["Answer"] else []) ++
    (if o4 ≠ v4 then ["Source"] else []) ++
    (if o5 ≠ v5 then ["Details"] else [])

/-- Exact-match phase: iterate the verified dict; for keys present in
both dicts compare columns 3.. and classify rewritten (score 100) or
unchanged.  Returns (rewritten records, unchanged count, matched keys). -/
def exactPhase (odict : List (CKey × Row)) :
    List (CKey × Row) → Except VErr (List RewriteRec × Nat × List CKey)
  | [] => .ok ([], 0, [])
  | (k, vrow) :: rest =>
    match lookupOD odict k with
    | none => exactPhase odict rest
    | some orow =>
      if orow.drop 3 ≠ vrow.drop 3 then
        match changed345 orow vrow with
        | .error e => .error e
        | .ok cf =>
          match exactPhase odict rest with
          | .error e => .error e
          | .ok (recs, unch, mk) =>
            .ok ((orow, vrow, cf, (100 : ℚ)) :: recs, unch, k :: mk)
      else
        match exactPhase odict rest with
        | .error e => .error e
        | .ok (recs, unch, mk) => .ok (recs, unch + 1, k :: mk)

/-- Weighted similarity blend: 60% token-sort ratio of normalized
Questions, 20% partial ratio of normalized Questions, 20% token-sort
ratio of normalized Topics.  `fuzzTS`/`fuzzPR` are the external
`fuzzywuzzy` ratio functions. -/
def overallSim (fuzzTS fuzzPR : String → String → ℚ) (o v : Row) :
    Except VErr ℚ := do
  let o2 ← getIdx o 2
  let v2 ← getIdx v 2
  let o0 ← getIdx o 0
  let v0 ← getIdx v 0
  return (6 : ℚ) / 10 * fuzzTS (normalize_text o2) (normalize_text v2) +
    (2 : ℚ) / 10 * fuzzPR (normalize_text o2) (normalize_text v2) +
    (2 : ℚ) / 10 * fuzzTS (normalize_text o0) (normalize_text v0)

/-- Best-candidate state of the inner fuzzy loop. -/
structure Best where
  score : ℚ
  m : Option (Nat × Row)
  cf : List String

/-- Inner fuzzy loop: score the original row against every still-unused
verified row, keeping the strictly best candidate (first wins on ties). -/
def innerLoop (fuzzTS fuzzPR : String → String → ℚ) (orow : Row)
    (used : List Nat) :
    List (Nat × Row) → Best → Except VErr Best
  | [], best => .ok best
  | (idx, vrow) :: rest, best =>
    if idx ∈ used then innerLoop fuzzTS fuzzPR orow used rest best
    else do
      let sim ← overallSim fuzzTS fuzzPR orow vrow
      let tcf ← changedAll6 orow vrow
      innerLoop fuzzTS fuzzPR orow used rest
        (if best.score < sim then ⟨sim, some (idx, vrow), tcf⟩ else best)

/-- Outer fuzzy loop over the unpaired originals (in order, greedy): a
best score ≥ 80 claims the verified row (marked used), otherwise the
original is removed.  Returns (fuzzy rewrites, removed rows, used
indices). -/
def fuzzyLoop (fuzzTS fuzzPR : String → String → ℚ)
    (vers : List (Nat × Row)) :
    List Row → List Nat → Except VErr (List RewriteRec × List Row × List Nat)
  | [], used => .ok ([], [], used)
  | orow :: rest, used =>
    match innerLoop fuzzTS fuzzPR orow used vers ⟨0, none, []⟩ with
    | .error e => .error e
    | .ok best =>
      if 80 ≤ best.score then
        match best.m with
        | some (idx, vrow) =>
          match fuzzyLoop fuzzTS fuzzPR vers rest (idx :: used) with
          | .error e => .error e
          | .ok (fz, rm, used') =>
            .ok ((orow, vrow, best.cf, best.score) :: fz, rm, used')
        | none => .error .typeError
      else
        match fuzzyLoop fuzzTS fuzzPR vers rest used with
        | .error e => .error e
        | .ok (fz, rm, used') => .ok (fz, orow :: rm, used')

/-- Verified rows never claimed by a fuzzy match. -/
def addedCards (vers : List (Nat × Row)) (used : List Nat) : List Row :=
  (vers.filter (fun p => p.1 ∉ used)).map (fun p => p.2)

/-- Field accesses performed by the logging f-strings (columns 0–5). -/
def logRowCheck (r : Row) : Except VErr Unit := do
  let _ ← getIdx r 0
  let _ ← getIdx r 1
  let _ ← getIdx r 2
  let _ ← getIdx r 3
  let _ ← getIdx r 4
  let _ ← getIdx r 5
  return ()

/-- Logging pass over removed/added rows. -/
def logChecks : List Row → Except VErr Unit
  | [] => .ok ()
  | r :: t => do
    logRowCheck r
    logChecks t

/-- Logging pass over rewritten records (both rows are formatted). -/
def logRecChecks : List RewriteRec → Except VErr Unit
  | [] => .ok ()
  | (o, v, _, _) :: t => do
    logRowCheck o
    logRowCheck v
    logRecChecks t

/-- Observable outcome of `verify_csv`: the classification records the
function logs, plus the returned CSV text. -/
structure VOut where
  rewritten : List RewriteRec
  fuzzyRewritten : List RewriteRec
  unchangedCount : Nat
  removed : List Row
  added : List Row
  returned : String
deriving DecidableEq, Repr

/-- Reconciliation body of `verify_csv` (after both decks parsed). -/
def reconcile (fuzzTS fuzzPR : String → String → ℚ)
    (original_cards verified_cards : List Row) (verified_csv : String) :
    Except VErr VOut :=
  let odict := buildDict original_cards
  let vdict := buildDict verified_cards
  match exactPhase odict vdict with
  | .error e => .error e
  | .ok (recs, unch, matched) =>
    let unpairedO := (odict.filter (fun p => p.1 ∉ matched)).map (fun p => p.2)
    let unpairedV := (vdict.filter (fun p => p.1 ∉ matched)).map (fun p => p.2)
    let vers := unpairedV.enum
    match fuzzyLoop fuzzTS fuzzPR vers unpairedO [] with
    | .error e => .error e
    | .ok (fz, rm, used) =>
      let ad := addedCards vers used
      match logChecks rm with
      | .error e => .error e
      | .ok _ =>
        match logChecks ad with
        | .error e => .error e
        | .ok _ =>
          match logRecChecks (recs ++ fz) with
          | .error e => .error e
          | .ok _ => .ok ⟨recs, fz, unch, rm, ad, verified_csv⟩

/-- Source method `FlashcardBackend.verify_csv`: parse the original CSV
(fall back to it on failure), call the gateway (its `RuntimeError`
propagates), parse the verified CSV (fall back on failure), reconcile
for logging, return the verified text.  `readCSV` abstracts the `csv`
module, `genResult` the `_gen` call. -/
def verify_csv (readCSV : String → Except Unit (List Row))
    (fuzzTS fuzzPR : String → String → ℚ)
    (genResult : Except String String) (csv_text : String) :
    Except VErr VOut :=
  match readCSV csv_text with
  | .error _ => .ok ⟨[], [], 0, [], [], csv_text⟩
  | .ok rows =>
    let original_cards := dropHeader rows
    match genResult with
    | .error g => .error (.gateway g)
    | .ok verified_csv =>
      match readCSV verified_csv with
      | .error _ => .ok ⟨[], [], 0, [], [], csv_text⟩
      | .ok vrows =>
        reconcile fuzzTS fuzzPR original_cards (dropHeader vrows) verified_csv

/-- Invariant carried by the inner fuzzy loop's best candidate. -/
def BestInv (best : Best) : Prop :=
  (best.m = none → best.score = 0) ∧
  (∀ i v, best.m = some (i, v) → 6 ≤ v.length)

/-! ## Response validation of `_gen` (`ankibot/backend.py`, lines 84–117)

The closure `_call` validates the model response and, for
`type == "fact_extraction"`, runs a JSON cleanup cascade before
accepting it.  `json.loads` validity (`is_valid_json`) is the parameter
`jvalid`; the regex engine's behaviour on the two concrete patterns the
source uses is implemented directly. -/

/-- Python `s.startswith(pre)`. -/
def pyStartsWith (s pre : String) : Bool :=
  s.data.take pre.data.length == pre.data

/-- The backquote character. -/
def fenceChar : Char := Char.ofNat 96

/-- Regex `^(three backquotes)[a-zA-Z0-9]*\x5cn?` removal (anchored, so at
most one substitution). -/
def stripFenceStart (cs : List Char) : List Char :=
  match cs with
  | c1 :: c2 :: c3 :: rest =>
    if c1 = fenceChar ∧ c2 = fenceChar ∧ c3 = fenceChar then
      match rest.dropWhile (fun c => c.isAlpha || c.isDigit) with
      | '\n' :: rest' => rest'
      | other => other
    else cs
  | _ => cs

/-- Regex `(three backquotes)$` removal: `$` also matches just before a
final newline. -/
def stripFenceEnd (cs : List Char) : List Char :=
  match cs.reverse with
  | c1 :: c2 :: c3 :: rest =>
    if c1 = fenceChar ∧ c2 = fenceChar ∧ c3 = fenceChar then rest.reverse
    else
      match cs.reverse with
      | n :: d1 :: d2 :: d3 :: rest' =>
        if n = '\n' ∧ d1 = fenceChar ∧ d2 = fenceChar ∧ d3 = fenceChar then
          rest'.reverse ++ ['\n']
        else cs
      | _ => cs
  | _ => cs

/-- Helper: does the list start with `\s*]`? -/
def wsThenRBr : List Char → Bool
  | ']' :: _ => true
  | c :: rest => if c.isWhitespace then wsThenRBr rest else false
  | [] => false

/-- Greedy tail of the regex `\x5c[\s*{.*}\s*\x5c]` with DOTALL: the longest
prefix of the body ending in `}` `\s*` `]`. -/
def greedyClose : List Char → Option (List Char)
  | [] => none
  | c :: rest =>
    match greedyClose rest with
    | some m => some (c :: m)
    | none =>
      if c = '}' ∧ wsThenRBr rest then
        some ('}' :: (rest.takeWhile (fun ch => ch.isWhitespace) ++ [']']))
      else none

/-- Attempt of the array regex at the current position. -/
def matchArrayAt : List Char → Option (List Char)
  | '[' :: rest =>
    (match rest.dropWhile (fun c => c.isWhitespace) with
     | '{' :: body =>
       (match greedyClose body with
        | some m =>
          some ('[' :: (rest.takeWhile (fun c => c.isWhitespace) ++ '{' :: m))
        | none => none)
     | _ => none)
  | _ => none

/-- Leftmost match of `re.search(r"\x5c[\s*{.*}\s*\x5c]", ·, re.DOTALL)`. -/
def searchArray : List Char → Option (List Char)
  | [] => none
  | c :: rest =>
    match matchArrayAt (c :: rest) with
    | some m => some m
    | none => searchArray rest

/-- JSON cleanup cascade for fact-extraction responses: (1) the stripped
text as-is; (2) code fences stripped; (3) the first array-shaped
substring extracted by regex. -/
def cleanupCascade (jvalid : String → Bool) (text : String) : String :=
  let t := pyStrip text
  if jvalid t then t
  else
    let c1 := if pyStartsWith t "```" = true then
        pyStrip (String.mk (stripFenceEnd (stripFenceStart t.data)))
      else t
    if jvalid c1 then c1
    else
      match searchArray c1.data with
      | some m => String.mk m
      | none => c1

/-- The `_call` closure of `_gen`: reject empty/`[]`/apology responses;
for fact extraction, additionally require the cleanup cascade to yield
valid JSON, otherwise raise (so the attempt is retried). -/
def callValidate (jvalid : String → Bool) (ty : String)
    (resp : Option String) : Except PyErr String :=
  match resp with
  | none => .error (.internalServerError "No response from model.")
  | some text =>
    if pyStrip text = "" ∨ pyStrip text = "[]" ∨
        pyStartsWith (pyLower (pyStrip text)) "i'm sorry" = true ∨
        pyStartsWith (pyLower (pyStrip text)) "sorry," = true then
      .error (.internalServerError "No response from model.")
    else if ty = "fact_extraction" then
      if jvalid (cleanupCascade jvalid text) then
        .ok (cleanupCascade jvalid text)
      else .error (.internalServerError "Invalid JSON output for facts.")
    else .ok (pyStrip text)

/-! ## Fact extraction (`ankibot/backend.py`, `FlashcardBackend.extract_facts`)

JSON values are modelled by `JVal`; `json.loads` is the parameter
`jparse` (returning `none` on parse failure, as `try_parse_json` does).
Python truthiness, iteration and `dict.get` are modelled so that the
repair cascade and the per-element behaviour are faithful. -/

/-- JSON values as produced by `json.loads`. -/
inductive JVal where
  | jnull
  | jbool (b : Bool)
  | jnum (n : Int)
  | jstr (s : String)
  | jarr (elems : List JVal)
  | jobj (fields : List (String × JVal))

/-- Python truthiness of a JSON value. -/
def JVal.truthy : JVal → Bool
  | .jnull => false
  | .jbool b => b
  | .jnum n => n != 0
  | .jstr s => s != ""
  | .jarr l => !l.isEmpty
  | .jobj l => !l.isEmpty

/-- Truthiness of `try_parse_json`'s result (`None` is falsy). -/
def optTruthy : Option JVal → Bool
  | none => false
  | some v => v.truthy

/-- Python `for f in data`: arrays iterate their elements, dicts their
keys, strings their characters; numbers and booleans raise `TypeError`
(`none`). -/
def JVal.iterElems : JVal → Option (List JVal)
  | .jarr l => some l
  | .jobj l => some (l.map fun p => JVal.jstr p.1)
  | .jstr s => some (s.data.map fun c => JVal.jstr (String.mk [c]))
  | _ => none

/-- Python `dict.get` on parsed JSON object fields. -/
def dictGet (fields : List (String × JVal)) (k : String) : Option JVal :=
  match fields with
  | [] => none
  | (k', v) :: t => if k' = k then some v else dictGet t k

/-- The `Fact` dataclass: `topic`/`fact` coerced to stripped strings,
`subtopic`/`source` passed through as-is (missing ↦ `None` ↦ `jnull`). -/
structure FactRec where
  topic : String
  subtopic : JVal
  fact : String
  source : JVal

/-- Element validation in `extract_facts`: succeeds only for a dict
whose `topic` and `fact` values are strings (or absent, defaulting to
`""`); any other shape raises inside the loop and is skipped (`none`). -/
def parseFact (f : JVal) : Option FactRec :=
  match f with
  | .jobj fields =>
    (match (dictGet fields "topic").getD (.jstr ""),
        (dictGet fields "fact").getD (.jstr "") with
     | .jstr t, .jstr fa =>
       some ⟨pyStrip t, (dictGet fields "subtopic").getD .jnull,
         pyStrip fa, (dictGet fields "source").getD .jnull⟩
     | _, _ => none)
  | _ => none

/-- The double-quote character. -/
def quoteChar : Char := Char.ofNat 34

/-- The single-quote character. -/
def aposChar : Char := Char.ofNat 39

/-- Python `str.replace(", ]", "]")` (left to right, non-overlapping). -/
def replaceCommaSpaceBr : List Char → List Char
  | ',' :: ' ' :: ']' :: rest => ']' :: replaceCommaSpaceBr rest
  | c :: rest => c :: replaceCommaSpaceBr rest
  | [] => []

/-- Python `str.replace(",]", "]")`. -/
def replaceCommaBr : List Char → List Char
  | ',' :: ']' :: rest => ']' :: replaceCommaBr rest
  | c :: rest => c :: replaceCommaBr rest
  | [] => []

/-- Step-3 heuristic repair of `extract_facts`: single → double quotes,
newlines → spaces, trailing commas before `]` removed. -/
def fixText (s : String) : String :=
  String.mk (replaceCommaBr (replaceCommaSpaceBr (s.data.map
    (fun c => if c = aposChar then quoteChar
      else if c = '\n' then ' ' else c))))

/-- The three-step parse cascade of `extract_facts`: direct parse, regex
array extraction, heuristic repair plus regex extraction. -/
def dataCascade (jparse : String → Option JVal) (text : String) :
    Option JVal :=
  let data0 := jparse text
  let data1 := if optTruthy data0 then data0 else
    match searchArray text.data with
    | some m => jparse (String.mk m)
    | none => data0
  if optTruthy data1 then data1 else
    match searchArray (fixText text).data with
    | some m => jparse (String.mk m)
    | none => data1

/-- Exceptions that can escape `extract_facts`. -/
inductive ExtractErr where
  | gatewayError (e : TerminalErr)
  | typeError

/-- Source method `FlashcardBackend.extract_facts`: the `_gen` outcome
is `genResult` (its `RuntimeError` is NOT caught here and propagates);
a falsy parse result degrades to `[]`; individual malformed elements are
skipped; iterating a truthy non-iterable parse result raises
`TypeError`. -/
def extract_facts (jparse : String → Option JVal)
    (genResult : Except TerminalErr String) : Except ExtractErr (List FactRec) :=
  match genResult with
  | .error e => .error (.gatewayError e)
  | .ok text =>
    match dataCascade jparse text with
    | none => .ok []
    | some d =>
      if d.truthy then
        match d.iterElems with
        | some elems => .ok (elems.filterMap parseFact)
        | none => .error .typeError
      else .ok []

/-! ## CSV export and preview (`ui/export.py` `_rows_to_csv_text`,
`ui/preview.py` `_parse_cards_to_rows`)

The writer models `csv.writer` with `QUOTE_ALL` (every field quoted,
embedded quotes doubled, `\x5cr\x5cn` terminators); the reader models
`csv.reader`'s default dialect as a character-level state machine. -/

/-- The fixed header row. -/
def csvHeader : List String :=
  ["Topic", "Subtopic", "Question", "Answer", "Source", "Details"]

/-- Python `(r + [""] * 6)[:6]`: pad short rows, truncate long ones. -/
def pad6 (r : List String) : List String :=
  (r ++ List.replicate 6 "").take 6

/-- Double embedded double quotes (RFC4180 escaping). -/
def escQuotes : List Char → List Char
  | [] => []
  | c :: rest =>
    if c = quoteChar then quoteChar :: quoteChar :: escQuotes rest
    else c :: escQuotes rest

/-- One quoted field as `csv.writer(QUOTE_ALL)` emits it. -/
def encodeField (f : String) : List Char :=
  quoteChar :: (escQuotes f.data ++ [quoteChar])

/-- One CSV record: comma-separated quoted fields plus `\x5cr\x5cn`. -/
def encodeRow (r : List String) : List Char :=
  (match r with
   | [] => []
   | f :: rest =>
     encodeField f ++ (rest.map (fun g => ',' :: encodeField g)).flatten) ++
    ['\r', '\n']

/-- Source function `_rows_to_csv_text` from `ui/export.py`: empty row
list gives `""`; otherwise a fresh header plus `rows[1:]`, each padded
and truncated to 6 fields, all fields quoted. -/
def rows_to_csv_text (card_rows : List (List String)) : String :=
  match card_rows with
  | [] => ""
  | _ :: rest =>
    String.mk (((csvHeader :: rest.map pad6).map encodeRow).flatten)

/-- Parser states for the `csv.reader` model. -/
inductive CSVSt where
  | recStart
  | afterCR
  | fieldStart
  | unquoted
  | quoted
  | afterQuote

/-- Parser state: mode, current field, current row, finished rows. -/
structure CSVState where
  st : CSVSt
  fld : List Char
  row : List (List Char)
  rows : List (List (List Char))

/-- One character of `csv.reader`: default dialect, `\x5cr\x5cn` or `\x5cn`
record ends, doubled quotes inside quoted fields, non-strict handling of
stray characters after a closing quote. -/
def csvStep : CSVState → Char → CSVState
  | ⟨.quoted, fld, row, rows⟩, c =>
    if c = quoteChar then ⟨.afterQuote, fld, row, rows⟩
    else ⟨.quoted, fld ++ [c], row, rows⟩
  | ⟨.afterQuote, fld, row, rows⟩, c =>
    if c = quoteChar then ⟨.quoted, fld ++ [c], row, rows⟩
    else if c = ',' then ⟨.fieldStart, [], row ++ [fld], rows⟩
    else if c = '\r' then ⟨.afterCR, [], [], rows ++ [row ++ [fld]]⟩
    else if c = '\n' then ⟨.recStart, [], [], rows ++ [row ++ [fld]]⟩
    else ⟨.unquoted, fld ++ [c], row, rows⟩
  | ⟨.unquoted, fld, row, rows⟩, c =>
    if c = ',' then ⟨.fieldStart, [], row ++ [fld], rows⟩
    else if c = '\r' then ⟨.afterCR, [], [], rows ++ [row ++ [fld]]⟩
    else if c = '\n' then ⟨.recStart, [], [], rows ++ [row ++ [fld]]⟩
    else ⟨.unquoted, fld ++ [c], row, rows⟩
  | ⟨.fieldStart, fld, row, rows⟩, c =>
    if c = quoteChar then ⟨.quoted, fld, row, rows⟩
    else if c = ',' then ⟨.fieldStart, [], row ++ [fld], rows⟩
    else if c = '\r' then ⟨.afterCR, [], [], rows ++ [row ++ [fld]]⟩
    else if c = '\n' then ⟨.recStart, [], [], rows ++ [row ++ [fld]]⟩
    else ⟨.unquoted, fld ++ [c], row, rows⟩
  | ⟨.recStart, _, _, rows⟩, c =>
    if c = quoteChar then ⟨.quoted, [], [], rows⟩
    else if c = ',' then ⟨.fieldStart, [], [[]], rows⟩
    else if c = '\r' then ⟨.afterCR, [], [], rows ++ [[]]⟩
    else if c = '\n' then ⟨.recStart, [], [], rows ++ [[]]⟩
    else ⟨.unquoted, [c], [], rows⟩
  | ⟨.afterCR, _, _, rows⟩, c =>
    if c = '\n' then ⟨.recStart, [], [], rows⟩
    else if c = quoteChar then ⟨.quoted, [], [], rows⟩
    else if c = ',' then ⟨.fieldStart, [], [[]], rows⟩
    else if c = '\r' then ⟨.afterCR, [], [], rows ++ [[]]⟩
    else ⟨.unquoted, [c], [], rows⟩

/-- End of input: a pending field/row is emitted unless we are between
records. -/
def csvFinish (s : CSVState) : List (List (List Char)) :=
  match s.st with
  | .recStart => s.rows
  | .afterCR => s.rows
  | _ => s.rows ++ [s.row ++ [s.fld]]

/-- The `csv.reader` model over a whole string. -/
def parseCSV (s : String) : List (List String) :=
  (csvFinish (s.data.foldl csvStep ⟨.recStart, [], [], []⟩)).map
    (fun r => r.map String.mk)

/-- Source function `_parse_cards_to_rows` from `ui/preview.py`: always
yields a header row followed by the parsed data rows padded/truncated to
6 fields. -/
def parse_cards_to_rows (csv_text : String) : List (List String) :=
  let rows := parseCSV csv_text
  let rows := if rows.isEmpty then [csvHeader] else rows
  csvHeader :: (rows.drop 1).map pad6

lemma pyLower_eq_empty_iff (s : String) : pyLower s = "" ↔ s = "" := by
  cases s with
  | mk data =>
    constructor
    · intro h
      have : data.map Char.toLower = [] := congrArg String.data h
      simpa using congrArg String.mk (List.map_eq_nil_iff.mp this)
    · intro h
      rw [h]
      rfl

lemma dedupGo_sublist (l : List FactDict) (seen : List String) :
    (dedupGo l seen).Sublist l := by
  induction l generalizing seen with
  | nil => simp [dedupGo]
  | cons f rest ih =>
    simp only [dedupGo]
    split
    · exact List.Sublist.cons₂ f (ih _)
    · exact List.Sublist.cons f (ih _)

lemma dedupGo_key_fresh (l : List FactDict) (seen : List String) :
    ∀ g ∈ dedupGo l seen, factKey g ∉ seen ∧ factKey g ≠ "" := by
  induction l generalizing seen with
  | nil => simp [dedupGo]
  | cons f rest ih =>
    intro g hg
    simp only [dedupGo] at hg
    split at hg
    · rename_i hcond
      rcases List.mem_cons.mp hg with rfl | hg
      · exact ⟨hcond.2, hcond.1⟩
      · have := ih _ g hg
        exact ⟨fun hs => this.1 (List.mem_cons_of_mem _ hs), this.2⟩
    · exact ih _ g hg

lemma dedupGo_pairwise (l : List FactDict) (seen : List String) :
    (dedupGo l seen).Pairwise (fun a b => factKey a ≠ factKey b) := by
  induction l generalizing seen with
  | nil => simp [dedupGo]
  | cons f rest ih =>
    simp only [dedupGo]
    split
    · refine List.Pairwise.cons ?_ (ih _)
      intro g hg hkey
      have := dedupGo_key_fresh rest (factKey f :: seen) g hg
      exact this.1 (by simp [hkey])
    · exact ih _

lemma dedupGo_first_seen (l : List FactDict) (seen : List String) :
    ∀ g ∈ dedupGo l seen,
      l.find? (fun x => factKey x = factKey g) = some g := by
  induction l generalizing seen with
  | nil => simp [dedupGo]
  | cons f rest ih =>
    intro g hg
    simp only [dedupGo] at hg
    split at hg
    · rename_i hcond
      rcases List.mem_cons.mp hg with rfl | hg
      · simp [List.find?]
      · have hfresh := dedupGo_key_fresh rest (factKey f :: seen) g hg
        have hne : factKey f ≠ factKey g := by
          intro h
          exact hfresh.1 (by simp [h])
        have := ih _ g hg
        rw [List.find?_cons_of_neg _ (by simpa using hne)]
        exact this
    · rename_i hcond
      have hfresh := dedupGo_key_fresh rest seen g hg
      push_neg at hcond
      have hne : factKey f ≠ factKey g := by
        by_cases hf : factKey f = ""
        · intro h; exact hfresh.2 (h ▸ hf)
        · intro h; exact hfresh.1 (h ▸ hcond hf)
      have := ih _ g hg
      rw [List.find?_cons_of_neg _ (by simpa using hne)]
      exact this

/-- C5: `deduplicate_facts` returns a subsequence of its input (hence
output length ≤ input length and first-occurrence order is preserved), no
two kept facts share a case-folded trimmed `fact` key, and every kept
fact is the first input element bearing its key (first-seen wins, with
all its fields). -/
theorem deduplicate_facts_spec (l : List FactDict) :
    (deduplicate_facts l).length ≤ l.length ∧
    (deduplicate_facts l).Sublist l ∧
    (deduplicate_facts l).Pairwise (fun a b => factKey a ≠ factKey b) ∧
    (∀ g ∈ deduplicate_facts l,
      l.find? (fun x => factKey x = factKey g) = some g) := by
  refine ⟨(dedupGo_sublist l []).length_le, dedupGo_sublist l [],
    dedupGo_pairwise l [], dedupGo_first_seen l []⟩

/-- C10: every fact kept by `deduplicate_facts` has a non-empty trimmed
`fact` text, and any input fact whose trimmed `fact` text is empty (or
absent) is dropped entirely. -/
theorem deduplicate_facts_filters_empty (l : List FactDict) :
    (∀ g ∈ deduplicate_facts l, pyStrip (g.fact.getD "") ≠ "") ∧
    (∀ f ∈ l, pyStrip (f.fact.getD "") = "" → f ∉ deduplicate_facts l) := by
  constructor
  · intro g hg h
    have := (dedupGo_key_fresh l [] g hg).2
    exact this (by rw [factKey, h]; rfl)
  · intro f _ hkey hf
    have := (dedupGo_key_fresh l [] f hf).2
    exact this (by rw [factKey, hkey]; rfl)

lemma genAux_all_fail (call : Nat → Except PyErr String) (prompt : String)
    (e : Nat → PyErr) :
    ∀ fuel i delay lastErr, (∀ j, i ≤ j → j < i + fuel → call j = .error (e j)) →
      genAux call prompt fuel i delay lastErr =
        ⟨.error ⟨if fuel = 0 then lastErr else some (e (i + fuel - 1)), prompt⟩,
          fuel, (List.range fuel).map (fun j => delay * 2 ^ j)⟩ := by
  intro fuel
  induction fuel with
  | zero => intro i delay lastErr _; simp [genAux]
  | succ n ih =>
    intro i delay lastErr hfail
    have hc : call i = .error (e i) := hfail i le_rfl (by omega)
    simp only [genAux, hc]
    rw [ih (i + 1) (delay * 2) (some (e i))
      (fun j h1 h2 => hfail j (by omega) (by omega))]
    rcases Nat.eq_zero_or_pos n with rfl | hn
    · simp [List.range_succ_eq_map]
    · have h1 : i + 1 + n - 1 = i + (n + 1) - 1 := by omega
      have h2 : ¬(n = 0) := by omega
      simp only [h2, if_false, h1, GenOut.mk.injEq, true_and]
      refine ⟨rfl, ?_⟩
      rw [List.range_succ_eq_map]
      simp only [List.map_cons, List.map_map, pow_zero, mul_one]
      congr 1
      apply List.map_congr_left
      intro j _
      simp [Function.comp, pow_succ]
      ring

lemma genAux_succeeds (call : Nat → Except PyErr String) (prompt : String)
    (e : Nat → PyErr) :
    ∀ fuel i delay lastErr N s, N < fuel →
      (∀ j, i ≤ j → j < i + N → call j = .error (e j)) →
      call (i + N) = .ok s →
      genAux call prompt fuel i delay lastErr =
        ⟨.ok s, N + 1, (List.range N).map (fun j => delay * 2 ^ j)⟩ := by
  intro fuel
  induction fuel with
  | zero => omega
  | succ n ih =>
    intro i delay lastErr N s hN hfail hok
    rcases Nat.eq_zero_or_pos N with rfl | hNpos
    · simp only [Nat.add_zero] at hok
      simp [genAux, hok]
    · have hc : call i = .error (e i) := hfail i le_rfl (by omega)
      simp only [genAux, hc]
      rw [ih (i + 1) (delay * 2) (some (e i)) (N - 1) s (by omega)
        (fun j h1 h2 => hfail j (by omega) (by omega))
        (by have : i + 1 + (N - 1) = i + N := by omega
            rw [this]; exact hok)]
      have hN1 : N - 1 + 1 = N := by omega
      simp only [hN1, GenOut.mk.injEq, true_and]
      conv_rhs => rw [← hN1, List.range_succ_eq_map]
      simp only [List.map_cons, List.map_map, pow_zero, mul_one]
      congr 1
      apply List.map_congr_left
      intro j _
      simp [Function.comp, pow_succ]
      ring

/-- C2: retry behaviour of `_gen`.  If the underlying call fails on the
first `N` attempts (`N < 8`) and succeeds on attempt `N + 1`, exactly
`N + 1` calls are made, the successful text is returned, and the sleeps
before the re-attempts are `1, 2, …, 2^(N-1)` seconds; if all attempts
fail, exactly 8 calls are made and a terminal error carrying the last
underlying error and the original prompt is raised.  The error kinds `e`
(transient `InternalServerError` or any other exception) are arbitrary:
both are treated identically. -/
theorem gen_retry_policy (call : Nat → Except PyErr String) (prompt : String)
    (e : Nat → PyErr) :
    (∀ N s, N < 8 → (∀ j < N, call j = .error (e j)) → call N = .ok s →
      gen call prompt = ⟨.ok s, N + 1, (List.range N).map (fun j => 2 ^ j)⟩) ∧
    ((∀ j < 8, call j = .error (e j)) →
      gen call prompt =
        ⟨.error ⟨some (e 7), prompt⟩, 8, (List.range 8).map (fun j => 2 ^ j)⟩) := by
  constructor
  · intro N s hN hfail hok
    unfold gen
    rw [genAux_succeeds call prompt e 8 0 1 none N s hN
      (fun j h1 h2 => hfail j (by omega)) (by simpa using hok)]
    simp
  · intro hfail
    unfold gen
    rw [genAux_all_fail call prompt e 8 0 1 none
      (fun j h1 h2 => hfail j (by omega))]
    simp

/-- Witness for C2 at a concrete stub: fails twice then succeeds (3 calls,
sleeps 1 s and 2 s), and a stub that always fails (8 calls, terminal error
with the last error and the prompt). -/
theorem gen_retry_policy_witness :
    gen (fun i => if i < 2 then .error (.otherException "boom") else .ok "out")
        "p" = ⟨.ok "out", 3, [1, 2]⟩ ∧
    gen (fun _ => .error (.internalServerError "down")) "p" =
      ⟨.error ⟨some (.internalServerError "down"), "p"⟩, 8,
        [1, 2, 4, 8, 16, 32, 64, 128]⟩ := by
  constructor
  · have h := (gen_retry_policy
      (fun i => if i < 2 then .error (.otherException "boom") else .ok "out")
      "p" (fun _ => .otherException "boom")).1 2 "out" (by decide)
      (by intro j hj; interval_cases j <;> decide) (by decide)
    rw [h]; decide
  · have h := (gen_retry_policy
      (fun _ => .error (.internalServerError "down"))
      "p" (fun _ => .internalServerError "down")).2
      (by intro j hj; decide)
    rw [h]; decide

lemma lastN_length_le {τ : Type} (tokens : List τ) (n : Nat) (hn : 0 < n) :
    (lastN tokens n).length ≤ n := by
  unfold lastN
  split
  · rename_i h
    simp only [List.length_drop]
    omega
  · rename_i h
    push_neg at h
    exact le_of_not_lt fun hlt => absurd (h hn) (not_le.mpr hlt)

lemma splitLongGo_window_le {τ : Type} (tokens : List τ) (win ovlp : Nat) :
    ∀ fuel i, ∀ w ∈ splitLongGo tokens win ovlp i fuel, w.length ≤ win := by
  intro fuel
  induction fuel with
  | zero => intro i w hw; simp [splitLongGo] at hw
  | succ n ih =>
    intro i w hw
    simp only [splitLongGo] at hw
    split at hw
    · split at hw
      · rcases List.mem_singleton.mp hw with rfl
        exact List.length_take_le _ _
      · rcases List.mem_cons.mp hw with rfl | hw
        · exact List.length_take_le _ _
        · exact ih _ w hw
    · simp at hw

lemma chunkStep_inv {τ : Type} (tok : String → List τ)
    (detok : List τ → String) (max_tokens ovl : Nat) (sep : List τ)
    (Hrt : ∀ ts, tok (detok ts) = ts)
    (Hstrip : ∀ s, (tok (pyStrip s)).length ≤ (tok s).length)
    (Hovl : 0 < ovl) (st : List String × List τ) (p : String)
    (hbuf : st.2.length ≤ max_tokens + ovl + sep.length)
    (hchunks : ∀ c ∈ st.1, (tok c).length ≤ max_tokens + ovl + sep.length) :
    (chunkStep tok detok max_tokens ovl sep st p).2.length ≤
      max_tokens + ovl + sep.length ∧
    ∀ c ∈ (chunkStep tok detok max_tokens ovl sep st p).1,
      (tok c).length ≤ max_tokens + ovl + sep.length := by
  have hflush : (tok (pyStrip (detok st.2))).length ≤
      max_tokens + ovl + sep.length := by
    calc (tok (pyStrip (detok st.2))).length ≤ (tok (detok st.2)).length :=
          Hstrip _
      _ = st.2.length := by rw [Hrt]
      _ ≤ _ := hbuf
  by_cases hlong : max_tokens < (tok p).length
  · rw [chunkStep, if_pos hlong]
    refine ⟨by simp, ?_⟩
    intro c hc
    dsimp only at hc
    rcases List.mem_append.mp hc with hc | hc
    · by_cases hb : st.2.isEmpty
      · rw [if_pos hb] at hc
        exact hchunks c hc
      · rw [if_neg hb] at hc
        rcases List.mem_append.mp hc with hc | hc
        · exact hchunks c hc
        · rcases List.mem_singleton.mp hc with rfl
          exact hflush
    · rcases List.mem_map.mp hc with ⟨w, hw, rfl⟩
      have hwin : w.length ≤ max_tokens := by
        rw [split_long_tokens] at hw
        split at hw
        · simp at hw
        · exact splitLongGo_window_le _ _ _ _ _ w hw
      calc (tok (pyStrip (detok w))).length ≤ (tok (detok w)).length :=
            Hstrip _
        _ = w.length := by rw [Hrt]
        _ ≤ max_tokens := hwin
        _ ≤ _ := by omega
  · rw [chunkStep, if_neg hlong]
    by_cases hover : st.2.isEmpty = false ∧
        max_tokens < st.2.length + ((tok p).length + sep.length)
    · rw [if_pos hover]
      constructor
      · dsimp only
        simp only [List.length_append]
        have := lastN_length_le st.2 ovl Hovl
        have hfit : (tok p).length ≤ max_tokens := by omega
        omega
      · intro c hc
        dsimp only at hc
        rcases List.mem_append.mp hc with hc | hc
        · exact hchunks c hc
        · rcases List.mem_singleton.mp hc with rfl
          exact hflush
    · rw [if_neg hover]
      constructor
      · dsimp only
        simp only [List.length_append]
        by_cases hb : st.2.isEmpty
        · have : st.2 = [] := List.isEmpty_iff.mp hb
          rw [this]
          simp only [List.length_nil]
          omega
        · have hbf : st.2.isEmpty = false := by
            cases h : st.2.isEmpty
            · rfl
            · exact absurd h hb
          have hfit :
              ¬ max_tokens < st.2.length + ((tok p).length + sep.length) :=
            fun h => hover ⟨hbf, h⟩
          omega
      · intro c hc
        dsimp only at hc
        exact hchunks c hc

lemma chunkFold_inv {τ : Type} (tok : String → List τ)
    (detok : List τ → String) (max_tokens ovl : Nat) (sep : List τ)
    (Hrt : ∀ ts, tok (detok ts) = ts)
    (Hstrip : ∀ s, (tok (pyStrip s)).length ≤ (tok s).length)
    (Hovl : 0 < ovl) :
    ∀ (ps : List String) (st : List String × List τ),
      st.2.length ≤ max_tokens + ovl + sep.length →
      (∀ c ∈ st.1, (tok c).length ≤ max_tokens + ovl + sep.length) →
      (ps.foldl (chunkStep tok detok max_tokens ovl sep) st).2.length ≤
          max_tokens + ovl + sep.length ∧
        ∀ c ∈ (ps.foldl (chunkStep tok detok max_tokens ovl sep) st).1,
          (tok c).length ≤ max_tokens + ovl + sep.length := by
  intro ps
  induction ps with
  | nil => intro st h1 h2; exact ⟨h1, h2⟩
  | cons p rest ih =>
    intro st h1 h2
    have step := chunkStep_inv tok detok max_tokens ovl sep Hrt Hstrip Hovl
      st p h1 h2
    exact ih _ step.1 step.2

/-- C1 (amended): under a tokenizer whose decode/encode round-trips and
for which stripping a string never increases its token count, and with a
positive clamped overlap `ovl = min overlap (max_tokens / 2)`, every
chunk produced by `chunk_text` has token count at most
`max_tokens + ovl + len(tok "\x5cn\x5cn")`.  (The stricter bound `max_tokens`
claimed by the spec fails: see the counterexample.) -/
theorem chunk_text_token_bound {τ : Type} (tok : String → List τ)
    (detok : List τ → String) (text : String) (max_tokens overlap : Nat)
    (Hrt : ∀ ts, tok (detok ts) = ts)
    (Hstrip : ∀ s, (tok (pyStrip s)).length ≤ (tok s).length)
    (Hovl : 0 < min overlap (max_tokens / 2)) :
    ∀ c ∈ chunk_text tok detok text max_tokens overlap,
      (tok c).length ≤
        max_tokens + min overlap (max_tokens / 2) + (tok "\n\n").length := by
  intro c hc
  unfold chunk_text at hc
  set ovl := min overlap (max_tokens / 2) with hovl
  set sep := tok "\n\n" with hsep
  set ps := ((pySplit2NL text).map pyStrip).filter (fun p => p ≠ "") with hps
  have main := chunkFold_inv tok detok max_tokens ovl sep Hrt Hstrip Hovl
    ps ([], []) (by simp) (by simp)
  simp only at hc
  split at hc
  · exact main.2 c hc
  · rcases List.mem_append.mp hc with hc | hc
    · exact main.2 c hc
    · rcases List.mem_singleton.mp hc with rfl
      calc (tok (pyStrip (detok _))).length ≤ (tok (detok _)).length :=
            Hstrip _
        _ = _ := by rw [Hrt]
        _ ≤ _ := main.1

lemma charTok_pyStrip_le (s : String) :
    (charTok (pyStrip s)).length ≤ (charTok s).length := by
  cases s with
  | mk data =>
    simp only [charTok, pyStrip]
    calc (((data.dropWhile Char.isWhitespace).reverse.dropWhile
          Char.isWhitespace).reverse).length
        = ((data.dropWhile Char.isWhitespace).reverse.dropWhile
          Char.isWhitespace).length := List.length_reverse _
      _ ≤ (data.dropWhile Char.isWhitespace).reverse.length :=
          (List.dropWhile_suffix _).sublist.length_le
      _ = (data.dropWhile Char.isWhitespace).length := List.length_reverse _
      _ ≤ data.length := (List.dropWhile_suffix _).sublist.length_le

/-- Witness for C1 (amended) at the character tokenizer: for the input
that overflows on reseed, every chunk is still within
`max_tokens + ovl + sep` = 17 tokens. -/
theorem chunk_text_token_bound_witness :
    0 < min 5 (10 / 2) ∧
    ∀ c ∈ chunk_text charTok charDetok "aaaaaaa\n\naaaaaaa" 10 5,
      (charTok c).length ≤ 10 + min 5 (10 / 2) + (charTok "\n\n").length :=
  ⟨by decide,
    chunk_text_token_bound charTok charDetok "aaaaaaa\n\naaaaaaa" 10 5
      (fun ts => rfl) charTok_pyStrip_le (by decide)⟩

/-- C1 (counterexample): with a lawful tokenizer (decode/encode
round-trips exactly), `chunk_text` with `max_tokens = 10`, `overlap = 5`
produces, on a two-paragraph input, the chunk `"aaa\x5cn\x5cnaaaaaaa"` of 12 >
10 tokens: the buffer reseeded with the last `overlap` tokens of the
flushed buffer overflows `max_tokens`. -/
theorem chunk_text_claim_counterexample :
    (∀ ts : List Char, charTok (charDetok ts) = ts) ∧
    chunk_text charTok charDetok "aaaaaaa\n\naaaaaaa" 10 5 =
      ["aaaaaaa", "aaa\n\naaaaaaa"] ∧
    ¬ ∀ c ∈ chunk_text charTok charDetok "aaaaaaa\n\naaaaaaa" 10 5,
        (charTok c).length ≤ 10 := by
  refine ⟨fun ts => rfl, by decide, ?_⟩
  intro h
  have := h "aaa\n\naaaaaaa" (by decide)
  simp [charTok] at this

lemma mem_insertOD (d : List (CKey × Row)) (k : CKey) (v : Row) :
    ∀ p ∈ insertOD d k v, p ∈ d ∨ p = (k, v) := by
  induction d with
  | nil => intro p hp; simp [insertOD] at hp; simp [hp]
  | cons q t ih =>
    intro p hp
    rw [insertOD] at hp
    split at hp
    · rcases List.mem_cons.mp hp with rfl | hp
      · rename_i heq
        right
        rw [← heq]
      · exact Or.inl (List.mem_cons_of_mem _ hp)
    · rcases List.mem_cons.mp hp with rfl | hp
      · exact Or.inl (List.mem_cons_self _ _)
      · rcases ih p hp with h | h
        · exact Or.inl (List.mem_cons_of_mem _ h)
        · exact Or.inr h

lemma buildDict_mem (rows : List Row) :
    ∀ p ∈ buildDict rows, p.2 ∈ rows ∧ card_key p.2 = some p.1 := by
  have main : ∀ (rs : List Row) (acc : List (CKey × Row)),
      (∀ p ∈ acc, p.2 ∈ rows ∧ card_key p.2 = some p.1) →
      (∀ r ∈ rs, r ∈ rows) →
      ∀ p ∈ rs.foldl
        (fun d r =>
          match card_key r with
          | some k => insertOD d k r
          | none => d) acc, p.2 ∈ rows ∧ card_key p.2 = some p.1 := by
    intro rs
    induction rs with
    | nil => intro acc hacc _ p hp; exact hacc p hp
    | cons r t ih =>
      intro acc hacc hmem p hp
      simp only [List.foldl_cons] at hp
      rcases hk : card_key r with _ | k
      · rw [hk] at hp
        exact ih acc hacc (fun x hx => hmem x (List.mem_cons_of_mem _ hx)) p hp
      · rw [hk] at hp
        refine ih (insertOD acc k r) ?_
          (fun x hx => hmem x (List.mem_cons_of_mem _ hx)) p hp
        intro q hq
        rcases mem_insertOD acc k r q hq with h | rfl
        · exact hacc q h
        · exact ⟨hmem r (List.mem_cons_self _ _), hk⟩
  intro p hp
  exact main rows [] (by simp) (fun r hr => hr) p hp

lemma lookupOD_mem (d : List (CKey × Row)) (k : CKey) (r : Row)
    (h : lookupOD d k = some r) : (k, r) ∈ d := by
  induction d with
  | nil => simp [lookupOD] at h
  | cons q t ih =>
    rw [lookupOD] at h
    split at h
    · rename_i heq
      injection h with h2
      subst h2
      have hq : (k, q.2) = q := by
        obtain ⟨k', v'⟩ := q
        cases heq
        rfl
      rw [hq]
      exact List.mem_cons_self _ _
    · exact List.mem_cons_of_mem _ (ih h)

lemma card_key_some_len (r : Row) (k : CKey) (h : card_key r = some k) :
    3 ≤ r.length := by
  rw [card_key] at h
  split at h
  · assumption
  · simp at h

lemma getIdx_lt (r : Row) (i : Nat) (h : i < r.length) :
    getIdx r i = .ok r[i] := by
  rw [getIdx, dif_pos h]

lemma changed345_ok (o v : Row) (ho : 6 ≤ o.length) (hv : 6 ≤ v.length) :
    ∃ cf, changed345 o v = .ok cf := by
  simp only [changed345, getIdx_lt o 3 (by omega), getIdx_lt v 3 (by omega),
    getIdx_lt o 4 (by omega), getIdx_lt v 4 (by omega),
    getIdx_lt o 5 (by omega), getIdx_lt v 5 (by omega), Except.bind, Bind.bind]
  exact ⟨_, rfl⟩

lemma changedAll6_ok (o v : Row) (ho : 6 ≤ o.length) (hv : 6 ≤ v.length) :
    ∃ cf, changedAll6 o v = .ok cf := by
  simp only [changedAll6, getIdx_lt o 0 (by omega), getIdx_lt v 0 (by omega),
    getIdx_lt o 1 (by omega), getIdx_lt v 1 (by omega),
    getIdx_lt o 2 (by omega), getIdx_lt v 2 (by omega),
    getIdx_lt o 3 (by omega), getIdx_lt v 3 (by omega),
    getIdx_lt o 4 (by omega), getIdx_lt v 4 (by omega),
    getIdx_lt o 5 (by omega), getIdx_lt v 5 (by omega), Except.bind, Bind.bind]
  exact ⟨_, rfl⟩

lemma overallSim_ok (fuzzTS fuzzPR : String → String → ℚ) (o v : Row)
    (ho : 3 ≤ o.length) (hv : 3 ≤ v.length) :
    ∃ q, overallSim fuzzTS fuzzPR o v = .ok q := by
  simp only [overallSim, getIdx_lt o 2 (by omega), getIdx_lt v 2 (by omega),
    getIdx_lt o 0 (by omega), getIdx_lt v 0 (by omega), Except.bind, Bind.bind]
  exact ⟨_, rfl⟩

lemma logRowCheck_ok (r : Row) (h : 6 ≤ r.length) :
    logRowCheck r = .ok () := by
  simp only [logRowCheck, getIdx_lt r 0 (by omega), getIdx_lt r 1 (by omega),
    getIdx_lt r 2 (by omega), getIdx_lt r 3 (by omega),
    getIdx_lt r 4 (by omega), getIdx_lt r 5 (by omega), Except.bind, Bind.bind,
    Pure.pure, Except.pure, pure]

lemma logChecks_ok (l : List Row) (h : ∀ r ∈ l, 6 ≤ r.length) :
    logChecks l = .ok () := by
  induction l with
  | nil => rfl
  | cons r t ih =>
    simp only [logChecks, logRowCheck_ok r (h r (List.mem_cons_self _ _)),
      Except.bind, Bind.bind]
    exact ih fun x hx => h x (List.mem_cons_of_mem _ hx)

lemma logRecChecks_ok (l : List RewriteRec)
    (h : ∀ p ∈ l, 6 ≤ p.1.length ∧ 6 ≤ p.2.1.length) :
    logRecChecks l = .ok () := by
  induction l with
  | nil => rfl
  | cons p t ih =>
    obtain ⟨o, v, cf, s⟩ := p
    have hp := h _ (List.mem_cons_self _ _)
    simp only [logRecChecks, logRowCheck_ok o hp.1, logRowCheck_ok v hp.2,
      Except.bind, Bind.bind]
    exact ih fun x hx => h x (List.mem_cons_of_mem _ hx)

lemma exactPhase_ok (odict vdict : List (CKey × Row))
    (hod : ∀ p ∈ odict, 6 ≤ p.2.length)
    (hvd : ∀ p ∈ vdict, 6 ≤ p.2.length) :
    ∃ recs unch mk, exactPhase odict vdict = .ok (recs, unch, mk) ∧
      ∀ p ∈ recs, 6 ≤ p.1.length ∧ 6 ≤ p.2.1.length := by
  induction vdict with
  | nil => exact ⟨[], 0, [], rfl, by simp⟩
  | cons q rest ih =>
    obtain ⟨k, vrow⟩ := q
    have hv : 6 ≤ vrow.length := hvd (k, vrow) (List.mem_cons_self _ _)
    obtain ⟨recs, unch, mk, hrec, hlen⟩ :=
      ih fun p hp => hvd p (List.mem_cons_of_mem _ hp)
    rw [exactPhase]
    rcases hlk : lookupOD odict k with _ | orow
    · exact ⟨recs, unch, mk, hrec, hlen⟩
    · have ho : 6 ≤ orow.length := hod (k, orow) (lookupOD_mem odict k orow hlk)
      dsimp only
      by_cases hdiff : orow.drop 3 ≠ vrow.drop 3
      · rw [if_pos hdiff]
        obtain ⟨cf, hcf⟩ := changed345_ok orow vrow ho hv
        rw [hcf, hrec]
        refine ⟨(orow, vrow, cf, 100) :: recs, unch, k :: mk, rfl, ?_⟩
        intro p hp
        rcases List.mem_cons.mp hp with rfl | hp
        · exact ⟨ho, hv⟩
        · exact hlen p hp
      · rw [if_neg hdiff, hrec]
        exact ⟨recs, unch + 1, k :: mk, rfl, hlen⟩

lemma innerLoop_ok (fuzzTS fuzzPR : String → String → ℚ) (orow : Row)
    (used : List Nat) (ho : 6 ≤ orow.length) :
    ∀ (vers : List (Nat × Row)) (best : Best),
      (∀ p ∈ vers, 6 ≤ p.2.length) → BestInv best →
      ∃ b, innerLoop fuzzTS fuzzPR orow used vers best = .ok b ∧ BestInv b := by
  intro vers
  induction vers with
  | nil => intro best _ hb; exact ⟨best, rfl, hb⟩
  | cons q rest ih =>
    intro best hlen hb
    obtain ⟨idx, vrow⟩ := q
    have hv : 6 ≤ vrow.length := hlen (idx, vrow) (List.mem_cons_self _ _)
    rw [innerLoop]
    by_cases hu : idx ∈ used
    · rw [if_pos hu]
      exact ih best (fun p hp => hlen p (List.mem_cons_of_mem _ hp)) hb
    · rw [if_neg hu]
      obtain ⟨sim, hsim⟩ := overallSim_ok fuzzTS fuzzPR orow vrow
        (by omega) (by omega)
      obtain ⟨tcf, htcf⟩ := changedAll6_ok orow vrow ho hv
      simp only [hsim, htcf, Except.bind, Bind.bind]
      refine ih _ (fun p hp => hlen p (List.mem_cons_of_mem _ hp)) ?_
      by_cases hlt : best.score < sim
      · rw [if_pos hlt]
        exact ⟨by simp, fun i v h => by
          simp only [Option.some.injEq, Prod.mk.injEq] at h
          rw [← h.2]
          exact hv⟩
      · rw [if_neg hlt]
        exact hb

lemma fuzzyLoop_ok (fuzzTS fuzzPR : String → String → ℚ)
    (vers : List (Nat × Row)) (hvers : ∀ p ∈ vers, 6 ≤ p.2.length) :
    ∀ (origs : List Row) (used : List Nat), (∀ o ∈ origs, 6 ≤ o.length) →
      ∃ fz rm used', fuzzyLoop fuzzTS fuzzPR vers origs used =
          .ok (fz, rm, used') ∧
        (∀ r ∈ rm, 6 ≤ r.length) ∧
        (∀ p ∈ fz, 6 ≤ p.1.length ∧ 6 ≤ p.2.1.length) := by
  intro origs
  induction origs with
  | nil => exact fun used _ => ⟨[], [], used, rfl, by simp, by simp⟩
  | cons orow rest ih =>
    intro used horigs
    have ho : 6 ≤ orow.length := horigs orow (List.mem_cons_self _ _)
    obtain ⟨best, hbest, hbinv⟩ := innerLoop_ok fuzzTS fuzzPR orow used ho
      vers ⟨0, none, []⟩ hvers ⟨fun _ => rfl, by simp⟩
    rw [fuzzyLoop, hbest]
    dsimp only
    by_cases hth : (80 : ℚ) ≤ best.score
    · rw [if_pos hth]
      rcases hm : best.m with _ | ⟨idx, vrow⟩
      · exfalso
        have := hbinv.1 hm
        rw [this] at hth
        norm_num at hth
      · have hv : 6 ≤ vrow.length := hbinv.2 idx vrow hm
        obtain ⟨fz, rm, used', hrec, hrm, hfz⟩ :=
          ih (idx :: used) fun o hx => horigs o (List.mem_cons_of_mem _ hx)
        dsimp only
        rw [hrec]
        refine ⟨(orow, vrow, best.cf, best.score) :: fz, rm, used', rfl,
          hrm, ?_⟩
        intro p hp
        rcases List.mem_cons.mp hp with rfl | hp
        · exact ⟨ho, hv⟩
        · exact hfz p hp
    · rw [if_neg hth]
      obtain ⟨fz, rm, used', hrec, hrm, hfz⟩ :=
        ih used fun o hx => horigs o (List.mem_cons_of_mem _ hx)
      rw [hrec]
      refine ⟨fz, orow :: rm, used', rfl, ?_, hfz⟩
      intro r hr
      rcases List.mem_cons.mp hr with rfl | hr
      · exact ho
      · exact hrm r hr

lemma reconcile_ok (fuzzTS fuzzPR : String → String → ℚ)
    (original_cards verified_cards : List Row) (verified_csv : String)
    (ho : ∀ r ∈ original_cards, 3 ≤ r.length → 6 ≤ r.length)
    (hv : ∀ r ∈ verified_cards, 3 ≤ r.length → 6 ≤ r.length) :
    ∃ out, reconcile fuzzTS fuzzPR original_cards verified_cards
        verified_csv = .ok out ∧ out.returned = verified_csv := by
  have hod : ∀ p ∈ buildDict original_cards, 6 ≤ p.2.length := by
    intro p hp
    obtain ⟨hmem, hkey⟩ := buildDict_mem original_cards p hp
    exact ho p.2 hmem (card_key_some_len _ _ hkey)
  have hvd : ∀ p ∈ buildDict verified_cards, 6 ≤ p.2.length := by
    intro p hp
    obtain ⟨hmem, hkey⟩ := buildDict_mem verified_cards p hp
    exact hv p.2 hmem (card_key_some_len _ _ hkey)
  obtain ⟨recs, unch, mk, hexact, hreclen⟩ :=
    exactPhase_ok (buildDict original_cards) (buildDict verified_cards)
      hod hvd
  rw [reconcile, hexact]
  dsimp only
  set unpairedO := ((buildDict original_cards).filter
    (fun p => p.1 ∉ mk)).map (fun p => p.2) with hupo
  set unpairedV := ((buildDict verified_cards).filter
    (fun p => p.1 ∉ mk)).map (fun p => p.2) with hupv
  have hupolen : ∀ o ∈ unpairedO, 6 ≤ o.length := by
    intro o hmem
    rw [hupo] at hmem
    obtain ⟨p, hp, rfl⟩ := List.mem_map.mp hmem
    exact hod p (List.mem_of_mem_filter hp)
  have hupvlen : ∀ p ∈ unpairedV.enum, 6 ≤ p.2.length := by
    intro p hmem
    obtain ⟨i, r⟩ := p
    have hr : r ∈ unpairedV := by
      have h2 := List.mk_mem_enum_iff_getElem?.mp hmem
      exact List.getElem?_mem h2
    rw [hupv] at hr
    obtain ⟨q, hq, rfl⟩ := List.mem_map.mp hr
    exact hvd q (List.mem_of_mem_filter hq)
  obtain ⟨fz, rm, used, hfuzzy, hrmlen, hfzlen⟩ :=
    fuzzyLoop_ok fuzzTS fuzzPR unpairedV.enum hupvlen unpairedO [] hupolen
  rw [hfuzzy]
  dsimp only
  have hadlen : ∀ r ∈ addedCards unpairedV.enum used, 6 ≤ r.length := by
    intro r hmem
    rw [addedCards] at hmem
    obtain ⟨p, hp, rfl⟩ := List.mem_map.mp hmem
    exact hupvlen p (List.mem_of_mem_filter hp)
  rw [logChecks_ok rm hrmlen, logChecks_ok _ hadlen,
    logRecChecks_ok (recs ++ fz) ?_]
  · exact ⟨_, rfl, rfl⟩
  · intro p hp
    rcases List.mem_append.mp hp with hp | hp
    · exact hreclen p hp
    · exact hfzlen p hp

/-- C3 (amended): `verify_csv` returns the original `csv_text` unchanged
whenever parsing the original or the verified CSV fails; when the
gateway call succeeds, both decks parse, and every parsed row that forms
a 3-field card key has at least 6 fields, it returns the verified CSV
text, the reconciliation classification having no effect on the returned
value.  (Without the 6-field condition the reconciliation's unguarded
accesses to columns 3–5 can raise `IndexError` instead of returning: see
the counterexample.) -/
theorem verify_csv_failsafe (readCSV : String → Except Unit (List Row))
    (fuzzTS fuzzPR : String → String → ℚ)
    (genResult : Except String String) (csv_text : String) :
    (∀ e, readCSV csv_text = .error e →
      verify_csv readCSV fuzzTS fuzzPR genResult csv_text =
        .ok ⟨[], [], 0, [], [], csv_text⟩) ∧
    (∀ rows g, readCSV csv_text = .ok rows → genResult = .ok g →
      (∀ e, readCSV g = .error e →
        verify_csv readCSV fuzzTS fuzzPR genResult csv_text =
          .ok ⟨[], [], 0, [], [], csv_text⟩) ∧
      (∀ vrows, readCSV g = .ok vrows →
        (∀ r ∈ dropHeader rows, 3 ≤ r.length → 6 ≤ r.length) →
        (∀ r ∈ dropHeader vrows, 3 ≤ r.length → 6 ≤ r.length) →
        ∃ out, verify_csv readCSV fuzzTS fuzzPR genResult csv_text =
            .ok out ∧ out.returned = g)) := by
  constructor
  · intro e he
    rw [verify_csv, he]
  · intro rows g hrows hg
    constructor
    · intro e he
      rw [verify_csv, hrows]
      dsimp only
      rw [hg]
      dsimp only
      rw [he]
    · intro vrows hvrows ho hv
      obtain ⟨out, hrec, hret⟩ := reconcile_ok fuzzTS fuzzPR
        (dropHeader rows) (dropHeader vrows) g ho hv
      rw [verify_csv, hrows]
      dsimp only
      rw [hg]
      dsimp only
      rw [hvrows]
      dsimp only
      rw [hrec]
      exact ⟨out, rfl, hret⟩

/-- Witness for C3 (amended) at concrete inputs: a failing parse returns
the original text; a clean parse of two 6-field decks returns the
verified text. -/
theorem verify_csv_failsafe_witness :
    verify_csv
      (fun str => if str = "bad" then .error () else
        .ok [["Topic", "Subtopic", "Question", "Answer", "Source", "Details"],
          ["a", "b", "c", "d", "e", "f"]])
      (fun _ _ => 0) (fun _ _ => 0) (.ok "good") "bad" =
      .ok ⟨[], [], 0, [], [], "bad"⟩ ∧
    ∃ out, verify_csv
      (fun str => if str = "bad" then .error () else
        .ok [["Topic", "Subtopic", "Question", "Answer", "Source", "Details"],
          ["a", "b", "c", "d", "e", "f"]])
      (fun _ _ => 0) (fun _ _ => 0) (.ok "good") "good" =
      .ok out ∧ out.returned = "good" := by
  constructor
  · exact (verify_csv_failsafe _ _ _ _ _).1 () (by decide)
  · exact ((verify_csv_failsafe _ (fun _ _ => 0) (fun _ _ => 0)
      (.ok "good") "good").2
      [["Topic", "Subtopic", "Question", "Answer", "Source", "Details"],
        ["a", "b", "c", "d", "e", "f"]] "good" (by decide) rfl).2
      [["Topic", "Subtopic", "Question", "Answer", "Source", "Details"],
        ["a", "b", "c", "d", "e", "f"]] (by decide)
      (by intro r hr; fin_cases hr; simp)
      (by intro r hr; fin_cases hr; simp)

/-- C3 (counterexample): with an original deck whose data row has 3
fields (CSV `a,b,c`) and a verified deck whose matching row has 4 fields
(`a,b,c,x`), both parse, yet `verify_csv` raises `IndexError` (the exact
phase reads `original_row[3]`) instead of returning the verified text —
refuting the claim that it always returns the verified CSV whenever both
decks parse. -/
theorem verify_csv_claim_counterexample :
    verify_csv
      (fun str => .ok (if str = "V"
        then [["Topic", "Subtopic", "Question"], ["a", "b", "c", "x"]]
        else [["Topic", "Subtopic", "Question"], ["a", "b", "c"]]))
      (fun _ _ => 0) (fun _ _ => 0) (.ok "V") "O" =
      .error .indexError := by
  decide

/-- C6: exact-key reconciliation.  For single-row decks sharing the card
key (Topic, Subtopic, Question), a difference in any of Answer/Source/
Details yields exactly one rewritten record (score 100) listing exactly
the differing fields among those three, with zero added/removed and the
verified text returned; if none of the three differ the pair counts as
unchanged.  Instantiating Answer `A1` → `A2` (the spec's example) gives
one rewritten record with changed-fields `["Answer"]`. -/
theorem verify_exact_rewrite (fuzzTS fuzzPR : String → String → ℚ)
    (t s q a src d a2 src2 d2 : String) :
    (¬ (a = a2 ∧ src = src2 ∧ d = d2) →
      verify_csv
        (fun str => .ok (if str = "V"
          then [["Topic", "Subtopic", "Question", "Answer", "Source",
            "Details"], [t, s, q, a2, src2, d2]]
          else [["Topic", "Subtopic", "Question", "Answer", "Source",
            "Details"], [t, s, q, a, src, d]]))
        fuzzTS fuzzPR (.ok "V") "O" =
        .ok ⟨[([t, s, q, a, src, d], [t, s, q, a2, src2, d2],
          (if a ≠ a2 then ["Answer"] else []) ++
          (if src ≠ src2 then ["Source"] else []) ++
          (if d ≠ d2 then ["Details"] else []), 100)],
          [], 0, [], [], "V"⟩) ∧
    (a = a2 → src = src2 → d = d2 →
      verify_csv
        (fun str => .ok (if str = "V"
          then [["Topic", "Subtopic", "Question", "Answer", "Source",
            "Details"], [t, s, q, a2, src2, d2]]
          else [["Topic", "Subtopic", "Question", "Answer", "Source",
            "Details"], [t, s, q, a, src, d]]))
        fuzzTS fuzzPR (.ok "V") "O" =
        .ok ⟨[], [], 1, [], [], "V"⟩) := by
  constructor
  · intro h
    have hdiff : List.drop 3 [t, s, q, a, src, d] ≠
        List.drop 3 [t, s, q, a2, src2, d2] := by
      simp only [List.drop, ne_eq, List.cons.injEq, and_true]
      exact fun hc => h ⟨hc.1, hc.2.1, hc.2.2⟩
    have hcf : changed345 [t, s, q, a, src, d] [t, s, q, a2, src2, d2] =
        .ok ((if a ≠ a2 then ["Answer"] else []) ++
          (if src ≠ src2 then ["Source"] else []) ++
          (if d ≠ d2 then ["Details"] else [])) := by
      simp [changed345, getIdx, Except.bind, Bind.bind, Pure.pure,
        Except.pure, pure]
    have hexact : exactPhase [((t, s, q), [t, s, q, a, src, d])]
        [((t, s, q), [t, s, q, a2, src2, d2])] =
        .ok ([([t, s, q, a, src, d], [t, s, q, a2, src2, d2],
          (if a ≠ a2 then ["Answer"] else []) ++
          (if src ≠ src2 then ["Source"] else []) ++
          (if d ≠ d2 then ["Details"] else []), 100)], 0, [(t, s, q)]) := by
      rw [exactPhase]
      have hlook : lookupOD [((t, s, q), [t, s, q, a, src, d])] (t, s, q) =
          some [t, s, q, a, src, d] := by simp [lookupOD]
      rw [hlook]
      dsimp only
      rw [if_pos hdiff, hcf, exactPhase]
    simp [verify_csv, dropHeader, buildDict, card_key, insertOD,
      reconcile, hexact, fuzzyLoop, addedCards, logChecks, logRecChecks,
      logRowCheck, getIdx, Except.bind, Bind.bind, Pure.pure, Except.pure,
      pure, List.enum]
  · intro h1 h2 h3
    subst h1
    subst h2
    subst h3
    simp [verify_csv, dropHeader, buildDict, card_key, insertOD, lookupOD,
      exactPhase, reconcile, fuzzyLoop, addedCards, logChecks,
      logRecChecks, logRowCheck, getIdx, Except.bind, Bind.bind, Pure.pure,
      Except.pure, pure, List.enum]

/-- Witness for C6 at the spec's concrete example: original deck row
`("Math","Algebra","Q1","A1","","")`, verified identical except
`Answer="A2"`: exactly one rewritten record with changed-fields
`["Answer"]`, score 100, zero added/removed, verified text returned. -/
theorem verify_exact_rewrite_witness :
    verify_csv
      (fun str => .ok (if str = "V"
        then [["Topic", "Subtopic", "Question", "Answer", "Source",
          "Details"], ["Math", "Algebra", "Q1", "A2", "", ""]]
        else [["Topic", "Subtopic", "Question", "Answer", "Source",
          "Details"], ["Math", "Algebra", "Q1", "A1", "", ""]]))
      (fun _ _ => 0) (fun _ _ => 0) (.ok "V") "O" =
      .ok ⟨[(["Math", "Algebra", "Q1", "A1", "", ""],
        ["Math", "Algebra", "Q1", "A2", "", ""], ["Answer"], 100)],
        [], 0, [], [], "V"⟩ := by
  have h := (verify_exact_rewrite (fun _ _ => 0) (fun _ _ => 0)
    "Math" "Algebra" "Q1" "A1" "" "" "A2" "" "").1
    (by intro hc; exact absurd hc.1 (by decide))
  rw [h]
  decide

/-- C7: fuzzy reconciliation.  For single-row decks whose card keys
differ, the unmatched original is scored against the unmatched verified
row by the blend 0.6·tokenSort(normalized Questions) +
0.2·partialRatio(normalized Questions) + 0.2·tokenSort(normalized
Topics); a best score ≥ 80 yields exactly one fuzzy rewritten record
with changed-field detection across all 6 columns and the verified row
claimed (no removed, no added), while a best score < 80 yields one
removed original and one added verified row. -/
theorem verify_fuzzy_match (fuzzTS fuzzPR : String → String → ℚ)
    (t1 s1 q1 a1 x1 d1 t2 s2 q2 a2 x2 d2 : String)
    (hk : (t1, s1, q1) ≠ (t2, s2, q2)) :
    (80 ≤ (6 : ℚ) / 10 * fuzzTS (normalize_text q1) (normalize_text q2) +
        (2 : ℚ) / 10 * fuzzPR (normalize_text q1) (normalize_text q2) +
        (2 : ℚ) / 10 * fuzzTS (normalize_text t1) (normalize_text t2) →
      verify_csv
        (fun str => .ok (if str = "V"
          then [["Topic", "Subtopic", "Question", "Answer", "Source",
            "Details"], [t2, s2, q2, a2, x2, d2]]
          else [["Topic", "Subtopic", "Question", "Answer", "Source",
            "Details"], [t1, s1, q1, a1, x1, d1]]))
        fuzzTS fuzzPR (.ok "V") "O" =
        .ok ⟨[], [([t1, s1, q1, a1, x1, d1], [t2, s2, q2, a2, x2, d2],
          (if t1 ≠ t2 then ["Topic"] else []) ++
          (if s1 ≠ s2 then ["Subtopic"] else []) ++
          (if q1 ≠ q2 then ["Question"] else []) ++
          (if a1 ≠ a2 then ["Answer"] else []) ++
          (if x1 ≠ x2 then ["Source"] else []) ++
          (if d1 ≠ d2 then ["Details"] else []),
          (6 : ℚ) / 10 * fuzzTS (normalize_text q1) (normalize_text q2) +
          (2 : ℚ) / 10 * fuzzPR (normalize_text q1) (normalize_text q2) +
          (2 : ℚ) / 10 * fuzzTS (normalize_text t1) (normalize_text t2))],
          0, [], [], "V"⟩) ∧
    ((6 : ℚ) / 10 * fuzzTS (normalize_text q1) (normalize_text q2) +
        (2 : ℚ) / 10 * fuzzPR (normalize_text q1) (normalize_text q2) +
        (2 : ℚ) / 10 * fuzzTS (normalize_text t1) (normalize_text t2) < 80 →
      verify_csv
        (fun str => .ok (if str = "V"
          then [["Topic", "Subtopic", "Question", "Answer", "Source",
            "Details"], [t2, s2, q2, a2, x2, d2]]
          else [["Topic", "Subtopic", "Question", "Answer", "Source",
            "Details"], [t1, s1, q1, a1, x1, d1]]))
        fuzzTS fuzzPR (.ok "V") "O" =
        .ok ⟨[], [], 0, [[t1, s1, q1, a1, x1, d1]],
          [[t2, s2, q2, a2, x2, d2]], "V"⟩) := by
  set o : Row := [t1, s1, q1, a1, x1, d1] with ho
  set v : Row := [t2, s2, q2, a2, x2, d2] with hv
  set sim : ℚ :=
    (6 : ℚ) / 10 * fuzzTS (normalize_text q1) (normalize_text q2) +
    (2 : ℚ) / 10 * fuzzPR (normalize_text q1) (normalize_text q2) +
    (2 : ℚ) / 10 * fuzzTS (normalize_text t1) (normalize_text t2) with hsimdef
  set cf6 : List String :=
    (if t1 ≠ t2 then ["Topic"] else []) ++
    (if s1 ≠ s2 then ["Subtopic"] else []) ++
    (if q1 ≠ q2 then ["Question"] else []) ++
    (if a1 ≠ a2 then ["Answer"] else []) ++
    (if x1 ≠ x2 then ["Source"] else []) ++
    (if d1 ≠ d2 then ["Details"] else []) with hcf6
  have hsim : overallSim fuzzTS fuzzPR o v = .ok sim := by
    simp [overallSim, getIdx, ho, hv, hsimdef, Except.bind, Bind.bind,
      Pure.pure, Except.pure, pure]
  have hcf : changedAll6 o v = .ok cf6 := by
    simp [changedAll6, getIdx, ho, hv, hcf6, Except.bind, Bind.bind,
      Pure.pure, Except.pure, pure]
  have hexact : exactPhase [((t1, s1, q1), o)] [((t2, s2, q2), v)] =
      .ok ([], 0, []) := by
    rw [exactPhase]
    have hlook : lookupOD [((t1, s1, q1), o)] (t2, s2, q2) = none := by
      rw [lookupOD, if_neg hk, lookupOD]
    rw [hlook, exactPhase]
  have hinner : innerLoop fuzzTS fuzzPR o [] [(0, v)] ⟨0, none, []⟩ =
      .ok (if (0 : ℚ) < sim then ⟨sim, some (0, v), cf6⟩
        else ⟨0, none, []⟩) := by
    rw [innerLoop]
    rw [if_neg (by simp)]
    simp only [hsim, hcf, Except.bind, Bind.bind]
    rw [innerLoop]
  constructor
  · intro hge
    have h0 : (0 : ℚ) < sim := lt_of_lt_of_le (by norm_num) hge
    have hfuzzy : fuzzyLoop fuzzTS fuzzPR [(0, v)] [o] [] =
        .ok ([(o, v, cf6, sim)], [], [0]) := by
      rw [fuzzyLoop, hinner]
      dsimp only
      rw [if_pos h0]
      dsimp only
      rw [if_pos hge]
      rw [fuzzyLoop]
    simp [verify_csv, dropHeader, buildDict, card_key, insertOD,
      reconcile, hexact, hfuzzy, addedCards, logChecks, logRecChecks,
      logRowCheck, getIdx, ho, hv, Except.bind, Bind.bind, Pure.pure,
      Except.pure, pure, List.enum]
  · intro hlt
    have hfuzzy : fuzzyLoop fuzzTS fuzzPR [(0, v)] [o] [] =
        .ok ([], [o], []) := by
      rw [fuzzyLoop, hinner]
      dsimp only
      by_cases h0 : (0 : ℚ) < sim
      · rw [if_pos h0]
        dsimp only
        rw [if_neg (not_le.mpr hlt)]
        rw [fuzzyLoop]
      · rw [if_neg h0]
        dsimp only
        rw [if_neg (by norm_num)]
        rw [fuzzyLoop]
    simp [verify_csv, dropHeader, buildDict, card_key, insertOD,
      reconcile, hexact, hfuzzy, addedCards, logChecks, logRecChecks,
      logRowCheck, getIdx, ho, hv, Except.bind, Bind.bind, Pure.pure,
      Except.pure, pure, List.enum]

/-- Witness for C7: with stub similarity functions returning 90 the
reworded question is classified as one fuzzy rewritten record (changed
fields `["Question"]`), not removed-plus-added; with stubs returning 10
it is removed-plus-added. -/
theorem verify_fuzzy_match_witness :
    (∃ rec, verify_csv
      (fun str => .ok (if str = "V"
        then [["Topic", "Subtopic", "Question", "Answer", "Source",
          "Details"], ["T", "S", "What is two plus two?", "4", "", ""]]
        else [["Topic", "Subtopic", "Question", "Answer", "Source",
          "Details"], ["T", "S", "What is 2+2?", "4", "", ""]]))
      (fun _ _ => 90) (fun _ _ => 90) (.ok "V") "O" =
      .ok ⟨[], [rec], 0, [], [], "V"⟩ ∧
      rec.1 = ["T", "S", "What is 2+2?", "4", "", ""] ∧
      rec.2.1 = ["T", "S", "What is two plus two?", "4", "", ""] ∧
      rec.2.2.1 = ["Question"]) ∧
    verify_csv
      (fun str => .ok (if str = "V"
        then [["Topic", "Subtopic", "Question", "Answer", "Source",
          "Details"], ["T", "S", "What is two plus two?", "4", "", ""]]
        else [["Topic", "Subtopic", "Question", "Answer", "Source",
          "Details"], ["T", "S", "What is 2+2?", "4", "", ""]]))
      (fun _ _ => 10) (fun _ _ => 10) (.ok "V") "O" =
      .ok ⟨[], [], 0, [["T", "S", "What is 2+2?", "4", "", ""]],
        [["T", "S", "What is two plus two?", "4", "", ""]], "V"⟩ := by
  constructor
  · have h := (verify_fuzzy_match (fun _ _ => 90) (fun _ _ => 90)
      "T" "S" "What is 2+2?" "4" "" ""
      "T" "S" "What is two plus two?" "4" "" ""
      (by decide)).1
      (by norm_num)
    refine ⟨_, h, ?_, ?_, ?_⟩
    · rfl
    · rfl
    · simp
  · have h := (verify_fuzzy_match (fun _ _ => 10) (fun _ _ => 10)
      "T" "S" "What is 2+2?" "4" "" ""
      "T" "S" "What is two plus two?" "4" "" ""
      (by decide)).2
      (by norm_num)
    exact h

/-- Witness for C5 at a concrete list: a later fact whose key differs
only by case/whitespace collapses onto the first occurrence, which is
kept with all its fields. -/
theorem deduplicate_facts_spec_witness :
    deduplicate_facts
      [⟨some "A", none, some "Fact One", none⟩,
       ⟨some "B", none, some " fact one ", none⟩,
       ⟨none, none, some "Two", none⟩] =
      [⟨some "A", none, some "Fact One", none⟩,
       ⟨none, none, some "Two", none⟩] ∧
    List.find?
      (fun x => factKey x = factKey (⟨some "A", none, some "Fact One", none⟩ : FactDict))
      [⟨some "A", none, some "Fact One", none⟩,
       ⟨some "B", none, some " fact one ", none⟩,
       ⟨none, none, some "Two", none⟩] =
      some ⟨some "A", none, some "Fact One", none⟩ :=
  ⟨by decide,
    (deduplicate_facts_spec
      [⟨some "A", none, some "Fact One", none⟩,
       ⟨some "B", none, some " fact one ", none⟩,
       ⟨none, none, some "Two", none⟩]).2.2.2
      ⟨some "A", none, some "Fact One", none⟩ (by decide)⟩

/-- Witness for C10 at a concrete list: a whitespace-only fact and an
absent fact are dropped; the kept fact has non-empty trimmed text. -/
theorem deduplicate_facts_filters_empty_witness :
    pyStrip ((some "keep" : Option String).getD "") ≠ "" ∧
    (⟨some "T", none, some "   ", none⟩ : FactDict) ∉
      deduplicate_facts
        [⟨some "T", none, some "   ", none⟩,
         ⟨some "U", none, none, none⟩,
         ⟨none, none, some "keep", none⟩] :=
  ⟨(deduplicate_facts_filters_empty
      [⟨some "T", none, some "   ", none⟩,
       ⟨some "U", none, none, none⟩,
       ⟨none, none, some "keep", none⟩]).1
      ⟨none, none, some "keep", none⟩ (by decide),
    (deduplicate_facts_filters_empty
      [⟨some "T", none, some "   ", none⟩,
       ⟨some "U", none, none, none⟩,
       ⟨none, none, some "keep", none⟩]).2
      ⟨some "T", none, some "   ", none⟩ (by decide) (by decide)⟩

lemma genAux_ok_inv (call : Nat → Except PyErr String) (prompt : String) :
    ∀ fuel i delay lastErr s,
      (genAux call prompt fuel i delay lastErr).result = .ok s →
      ∃ j, j < fuel ∧ call (i + j) = .ok s ∧
        ∀ k < j, ∃ e, call (i + k) = .error e := by
  intro fuel
  induction fuel with
  | zero => intro i delay lastErr s h; simp [genAux] at h
  | succ n ih =>
    intro i delay lastErr s h
    rw [genAux] at h
    rcases hc : call i with e | s'
    · rw [hc] at h
      dsimp only at h
      obtain ⟨j, hj, hok, hfail⟩ := ih (i + 1) (delay * 2) (some e) s h
      refine ⟨j + 1, by omega, by rw [show i + (j + 1) = i + 1 + j by omega]; exact hok, ?_⟩
      intro k hk
      rcases Nat.eq_zero_or_pos k with rfl | hkpos
      · exact ⟨e, by simpa using hc⟩
      · obtain ⟨e', he'⟩ := hfail (k - 1) (by omega)
        exact ⟨e', by rw [show i + k = i + 1 + (k - 1) by omega]; exact he'⟩
    · rw [hc] at h
      dsimp only at h
      injection h with h
      exact ⟨0, by omega, by simpa [h] using hc, by omega⟩

/-- C8: a Gateway attempt raises (and is therefore retried) exactly when
the response is `None`, its stripped text is `""` or `"[]"`, it begins
with an apology ("i'm sorry" / "sorry,"), or — for fact extraction —
the cleanup cascade fails to produce text the JSON validator accepts;
moreover any text the retry loop finally returns came from an attempt
that passed this validation, every earlier attempt having failed (an
invalid response is retried, never returned). -/
theorem gen_validation_retry (jvalid : String → Bool) (ty : String) :
    (∀ resp : Option String,
      (∃ e, callValidate jvalid ty resp = .error e) ↔
        (resp = none ∨ ∃ t, resp = some t ∧
          (pyStrip t = "" ∨ pyStrip t = "[]" ∨
            pyStartsWith (pyLower (pyStrip t)) "i'm sorry" = true ∨
            pyStartsWith (pyLower (pyStrip t)) "sorry," = true ∨
            (ty = "fact_extraction" ∧
              jvalid (cleanupCascade jvalid t) = false)))) ∧
    (∀ (resps : Nat → Option String) (prompt s : String),
      (gen (fun i => callValidate jvalid ty (resps i)) prompt).result =
        .ok s →
      ∃ i, i < 8 ∧ callValidate jvalid ty (resps i) = .ok s ∧
        ∀ j < i, ∃ e, callValidate jvalid ty (resps j) = .error e) := by
  constructor
  · intro resp
    rcases resp with _ | t
    · simp [callValidate]
    · rw [callValidate]
      by_cases h1 : pyStrip t = "" ∨ pyStrip t = "[]" ∨
          pyStartsWith (pyLower (pyStrip t)) "i'm sorry" = true ∨
          pyStartsWith (pyLower (pyStrip t)) "sorry," = true
      · rw [if_pos h1]
        constructor
        · intro _
          exact Or.inr ⟨t, rfl, by tauto⟩
        · intro _
          exact ⟨_, rfl⟩
      · rw [if_neg h1]
        by_cases h2 : ty = "fact_extraction"
        · rw [if_pos h2]
          by_cases h3 : jvalid (cleanupCascade jvalid t)
          · rw [if_pos h3]
            constructor
            · intro ⟨e, he⟩
              exact absurd he (by simp)
            · intro hr
              rcases hr with h | ⟨t', ht', hd⟩
              · exact absurd h (by simp)
              · injection ht' with ht'
                subst ht'
                rcases hd with h | h | h | h | ⟨_, h⟩
                · exact absurd (Or.inl h) h1
                · exact absurd (Or.inr (Or.inl h)) h1
                · exact absurd (Or.inr (Or.inr (Or.inl h))) h1
                · exact absurd (Or.inr (Or.inr (Or.inr h))) h1
                · rw [h3] at h
                  exact absurd h (by simp)
          · rw [if_neg h3]
            constructor
            · intro _
              refine Or.inr ⟨t, rfl, Or.inr (Or.inr (Or.inr (Or.inr
                ⟨h2, ?_⟩)))⟩
              rw [Bool.eq_false_iff]
              exact h3
            · intro _
              exact ⟨_, rfl⟩
        · rw [if_neg h2]
          constructor
          · intro ⟨e, he⟩
            exact absurd he (by simp)
          · intro hr
            rcases hr with h | ⟨t', ht', hd⟩
            · exact absurd h (by simp)
            · injection ht' with ht'
              subst ht'
              rcases hd with h | h | h | h | ⟨h, _⟩
              · exact absurd (Or.inl h) h1
              · exact absurd (Or.inr (Or.inl h)) h1
              · exact absurd (Or.inr (Or.inr (Or.inl h))) h1
              · exact absurd (Or.inr (Or.inr (Or.inr h))) h1
              · exact absurd h h2
  · intro resps prompt s h
    obtain ⟨j, hj, hok, hfail⟩ := genAux_ok_inv
      (fun i => callValidate jvalid ty (resps i)) prompt 8 0 1 none s h
    exact ⟨j, hj, by simpa using hok, fun k hk => by simpa using hfail k hk⟩

/-- Witness for C8 at a concrete validator (accepting exactly `"[1]"`):
an apology response and an unparseable response are rejected (retried),
a fenced response is cleaned and accepted, and a run whose first two
responses are invalid returns the cleaned text of the third attempt with
both earlier attempts having failed. -/
theorem gen_validation_retry_witness :
    (∃ e, callValidate (fun s => s == "[1]") "fact_extraction"
      (some "I'm sorry, I cannot help with that.") = .error e) ∧
    (∃ e, callValidate (fun s => s == "[1]") "fact_extraction"
      (some "no json here") = .error e) ∧
    callValidate (fun s => s == "[1]") "fact_extraction"
      (some "```json\n[1]\n```") = .ok "[1]" ∧
    (∃ i, i < 8 ∧
      callValidate (fun s => s == "[1]") "fact_extraction"
        ((fun k => if k < 2 then some "no json here"
          else some "```json\n[1]\n```") i) = .ok "[1]" ∧
      ∀ j < i, ∃ e, callValidate (fun s => s == "[1]") "fact_extraction"
        ((fun k => if k < 2 then some "no json here"
          else some "```json\n[1]\n```") j) = .error e) := by
  refine ⟨?_, ?_, by decide, ?_⟩
  · exact (gen_validation_retry (fun s => s == "[1]")
      "fact_extraction").1 (some "I'm sorry, I cannot help with that.")
      |>.mpr (Or.inr ⟨_, rfl, Or.inr (Or.inr (Or.inl (by decide)))⟩)
  · exact (gen_validation_retry (fun s => s == "[1]")
      "fact_extraction").1 (some "no json here")
      |>.mpr (Or.inr ⟨_, rfl, Or.inr (Or.inr (Or.inr (Or.inr
        ⟨rfl, by decide⟩)))⟩)
  · exact (gen_validation_retry (fun s => s == "[1]")
      "fact_extraction").2
      (fun k => if k < 2 then some "no json here"
        else some "```json\n[1]\n```") "p" "[1]" (by decide)

/-- C4 (amended): `extract_facts` is not exception-free — a gateway
failure after exhausted retries propagates out of it (and a truthy
non-iterable JSON value raises `TypeError`); every other failure mode
degrades as claimed: an unparseable or falsy response after the whole
repair cascade returns the empty list, and malformed elements of a
parsed array are skipped while the rest are kept. -/
theorem extract_facts_degrades (jparse : String → Option JVal) :
    (∀ e, extract_facts jparse (.error e) = .error (.gatewayError e)) ∧
    (∀ text, (∃ l, extract_facts jparse (.ok text) = .ok l) ∨
      extract_facts jparse (.ok text) = .error .typeError) ∧
    (∀ text, dataCascade jparse text = none →
      extract_facts jparse (.ok text) = .ok []) ∧
    (∀ text d elems, dataCascade jparse text = some d →
      d.iterElems = some elems →
      extract_facts jparse (.ok text) =
        .ok (if d.truthy then elems.filterMap parseFact else [])) := by
  refine ⟨fun e => rfl, ?_, ?_, ?_⟩
  · intro text
    rw [extract_facts]
    rcases dataCascade jparse text with _ | d
    · exact Or.inl ⟨[], rfl⟩
    · dsimp only
      by_cases ht : d.truthy
      · rw [if_pos ht]
        rcases d.iterElems with _ | elems
        · exact Or.inr rfl
        · exact Or.inl ⟨_, rfl⟩
      · rw [if_neg ht]
        exact Or.inl ⟨[], rfl⟩
  · intro text hnone
    rw [extract_facts, hnone]
  · intro text d elems hd helems
    rw [extract_facts, hd]
    dsimp only
    by_cases ht : d.truthy
    · rw [if_pos ht, helems, if_pos ht]
    · rw [if_neg ht, if_neg ht]

/-- C4 (counterexample): when the gateway exhausts its retries,
`extract_facts` does not degrade to an empty list — the terminal
`RuntimeError` escapes it (the `await self._gen(...)` is outside any
`try`; the pipeline caller, not `extract_facts`, catches it). -/
theorem extract_facts_claim_counterexample :
    extract_facts (fun _ => none)
      (.error ⟨some (.internalServerError "server down"), "prompt"⟩) =
      .error (.gatewayError
        ⟨some (.internalServerError "server down"), "prompt"⟩) := rfl

/-- Witness for C4 (amended) at concrete inputs: the gateway error
propagates; a response parsing to an array with one well-formed dict and
one malformed element yields exactly the well-formed fact (trimmed); an
unparseable response yields `[]`. -/
theorem extract_facts_degrades_witness :
    extract_facts (fun _ => none)
        (.error ⟨some (.otherException "boom"), "p"⟩) =
      .error (.gatewayError ⟨some (.otherException "boom"), "p"⟩) ∧
    extract_facts
      (fun s => if s = "J"
        then some (.jarr [.jobj [("topic", .jstr " T "), ("fact", .jstr " F ")],
          .jnum 3])
        else none) (.ok "J") =
      .ok [⟨"T", .jnull, "F", .jnull⟩] ∧
    extract_facts (fun _ => none) (.ok "not json") = .ok [] := by
  refine ⟨(extract_facts_degrades (fun _ => none)).1
    ⟨some (.otherException "boom"), "p"⟩, ?_, ?_⟩
  · have h := (extract_facts_degrades
      (fun s => if s = "J"
        then some (.jarr [.jobj [("topic", .jstr " T "), ("fact", .jstr " F ")],
          .jnum 3])
        else none)).2.2.2 "J"
      (.jarr [.jobj [("topic", .jstr " T "), ("fact", .jstr " F ")], .jnum 3])
      [.jobj [("topic", .jstr " T "), ("fact", .jstr " F ")], .jnum 3]
      rfl rfl
    rw [h]
    rfl
  · exact (extract_facts_degrades (fun _ => none)).2.2.1 "not json" rfl

lemma comma_ne_quote : (',' : Char) ≠ quoteChar := by decide

lemma cr_ne_quote : ('\r' : Char) ≠ quoteChar := by decide

lemma cr_ne_comma : ('\r' : Char) ≠ ',' := by decide

lemma csvStep_quoted_quote (fld : List Char) (row : List (List Char))
    (rows : List (List (List Char))) :
    csvStep ⟨.quoted, fld, row, rows⟩ quoteChar =
      ⟨.afterQuote, fld, row, rows⟩ := by
  simp [csvStep]

lemma csvStep_quoted_other (c : Char) (hc : c ≠ quoteChar)
    (fld : List Char) (row : List (List Char))
    (rows : List (List (List Char))) :
    csvStep ⟨.quoted, fld, row, rows⟩ c = ⟨.quoted, fld ++ [c], row, rows⟩ := by
  simp [csvStep, hc]

lemma csvStep_afterQuote_quote (fld : List Char) (row : List (List Char))
    (rows : List (List (List Char))) :
    csvStep ⟨.afterQuote, fld, row, rows⟩ quoteChar =
      ⟨.quoted, fld ++ [quoteChar], row, rows⟩ := by
  simp [csvStep]

lemma csvStep_afterQuote_comma (fld : List Char) (row : List (List Char))
    (rows : List (List (List Char))) :
    csvStep ⟨.afterQuote, fld, row, rows⟩ ',' =
      ⟨.fieldStart, [], row ++ [fld], rows⟩ := by
  simp [csvStep, comma_ne_quote]

lemma csvStep_afterQuote_cr (fld : List Char) (row : List (List Char))
    (rows : List (List (List Char))) :
    csvStep ⟨.afterQuote, fld, row, rows⟩ '\r' =
      ⟨.afterCR, [], [], rows ++ [row ++ [fld]]⟩ := by
  simp [csvStep, cr_ne_quote, cr_ne_comma]

lemma csvStep_afterCR_lf (fld : List Char) (row : List (List Char))
    (rows : List (List (List Char))) :
    csvStep ⟨.afterCR, fld, row, rows⟩ '\n' = ⟨.recStart, [], [], rows⟩ := by
  simp [csvStep]

lemma csvStep_fieldStart_quote (fld : List Char) (row : List (List Char))
    (rows : List (List (List Char))) :
    csvStep ⟨.fieldStart, fld, row, rows⟩ quoteChar =
      ⟨.quoted, fld, row, rows⟩ := by
  simp [csvStep]

lemma csvStep_recStart_quote (fld : List Char) (row : List (List Char))
    (rows : List (List (List Char))) :
    csvStep ⟨.recStart, fld, row, rows⟩ quoteChar =
      ⟨.quoted, [], [], rows⟩ := by
  simp [csvStep]

lemma foldl_escQuotes (fs : List Char) :
    ∀ (fld : List Char) (row : List (List Char))
      (rows : List (List (List Char))),
      List.foldl csvStep ⟨.quoted, fld, row, rows⟩ (escQuotes fs) =
        ⟨.quoted, fld ++ fs, row, rows⟩ := by
  induction fs with
  | nil => intro fld row rows; simp [escQuotes]
  | cons c t ih =>
    intro fld row rows
    rw [escQuotes]
    by_cases hc : c = quoteChar
    · rw [if_pos hc]
      subst hc
      rw [List.foldl_cons, csvStep_quoted_quote, List.foldl_cons,
        csvStep_afterQuote_quote, ih]
      simp
    · rw [if_neg hc, List.foldl_cons, csvStep_quoted_other c hc, ih]
      simp

lemma foldl_encodeField_fieldStart (f : String) (row : List (List Char))
    (rows : List (List (List Char))) :
    List.foldl csvStep ⟨.fieldStart, [], row, rows⟩ (encodeField f) =
      ⟨.afterQuote, f.data, row, rows⟩ := by
  rw [encodeField, List.foldl_cons, csvStep_fieldStart_quote,
    List.foldl_append, foldl_escQuotes, List.foldl_cons,
    csvStep_quoted_quote, List.foldl_nil]
  simp

lemma foldl_encodeField_recStart (f : String) (fld : List Char)
    (row : List (List Char)) (rows : List (List (List Char))) :
    List.foldl csvStep ⟨.recStart, fld, row, rows⟩ (encodeField f) =
      ⟨.afterQuote, f.data, [], rows⟩ := by
  rw [encodeField, List.foldl_cons, csvStep_recStart_quote,
    List.foldl_append, foldl_escQuotes, List.foldl_cons,
    csvStep_quoted_quote, List.foldl_nil]
  simp

lemma foldl_fieldsTail (gs : List String) :
    ∀ (f : List Char) (row : List (List Char))
      (rows : List (List (List Char))),
      List.foldl csvStep ⟨.afterQuote, f, row, rows⟩
        ((gs.map (fun g => ',' :: encodeField g)).flatten ++ ['\r', '\n']) =
        ⟨.recStart, [], [], rows ++ [row ++ [f] ++
          gs.map (fun g => g.data)]⟩ := by
  induction gs with
  | nil =>
    intro f row rows
    simp only [List.map_nil, List.flatten_nil, List.nil_append,
      List.foldl_cons, List.foldl_nil]
    rw [csvStep_afterQuote_cr, csvStep_afterCR_lf]
    simp
  | cons g gs' ih =>
    intro f row rows
    simp only [List.map_cons, List.flatten_cons, List.append_assoc,
      List.cons_append, List.foldl_cons]
    rw [csvStep_afterQuote_comma, List.foldl_append,
      foldl_encodeField_fieldStart, ih]
    simp

lemma foldl_encodeRow (r : List String) (hr : r ≠ []) (fld : List Char)
    (row : List (List Char)) (rows : List (List (List Char))) :
    List.foldl csvStep ⟨.recStart, fld, row, rows⟩ (encodeRow r) =
      ⟨.recStart, [], [], rows ++ [r.map (fun g => g.data)]⟩ := by
  rcases r with _ | ⟨f, rest⟩
  · exact absurd rfl hr
  · rw [encodeRow]
    simp only [List.append_assoc]
    rw [List.foldl_append, foldl_encodeField_recStart, foldl_fieldsTail]
    simp

lemma foldl_encodeRows (rs : List (List String)) :
    ∀ rows : List (List (List Char)), (∀ r ∈ rs, r ≠ []) →
      List.foldl csvStep ⟨.recStart, [], [], rows⟩
        ((rs.map encodeRow).flatten) =
        ⟨.recStart, [], [], rows ++ rs.map (fun r =>
          r.map (fun g => g.data))⟩ := by
  induction rs with
  | nil => intro rows _; simp
  | cons r rest ih =>
    intro rows hne
    simp only [List.map_cons, List.flatten_cons, List.foldl_append]
    rw [foldl_encodeRow r (hne r (List.mem_cons_self _ _)), ih]
    · simp
    · exact fun x hx => hne x (List.mem_cons_of_mem _ hx)

lemma pad6_length (r : List String) : (pad6 r).length = 6 := by
  simp only [pad6, List.length_take, List.length_append,
    List.length_replicate]
  omega

lemma pad6_of_length_six (r : List String) (h : r.length = 6) :
    pad6 r = r := by
  rw [pad6, ← h, List.take_left]

lemma pad6_ne_nil (r : List String) : pad6 r ≠ [] := by
  intro h
  have := pad6_length r
  rw [h] at this
  simp at this

lemma parseCSV_encode (rs : List (List String)) (hne : ∀ r ∈ rs, r ≠ []) :
    parseCSV (String.mk ((rs.map encodeRow).flatten)) = rs := by
  rw [parseCSV]
  have hdata : (String.mk ((rs.map encodeRow).flatten)).data =
      (rs.map encodeRow).flatten := rfl
  rw [hdata, foldl_encodeRows rs [] hne]
  simp only [csvFinish, List.nil_append, List.map_map]
  have hcomp : ((fun r => List.map String.mk r) ∘ fun r : List String =>
      List.map (fun g => String.data g) r) = id := by
    funext r
    simp only [Function.comp, List.map_map]
    have hmk : (String.mk ∘ fun g => String.data g) = id :=
      funext fun g => rfl
    rw [hmk, List.map_id]
    rfl
  rw [hcomp, List.map_id]

/-- C9: a deck is always serialized as a fresh header row plus data rows
padded/truncated to 6 fields, every field quoted with embedded quotes
doubled; consequently parsing a serialized deck recovers every field
value exactly (6-field rows are fixed points of the padding), including
an Answer with an embedded double quote. -/
theorem export_roundtrip :
    (∀ rows : List (List String),
      parse_cards_to_rows (rows_to_csv_text (csvHeader :: rows)) =
        csvHeader :: rows.map pad6) ∧
    (∀ r : List String, r.length = 6 → pad6 r = r) ∧
    parse_cards_to_rows (rows_to_csv_text
      [csvHeader, ["Math", "Algebra", "Q1", "He said \"hi\"", "", ""]]) =
      [csvHeader, ["Math", "Algebra", "Q1", "He said \"hi\"", "", ""]] := by
  have main : ∀ rows : List (List String),
      parse_cards_to_rows (rows_to_csv_text (csvHeader :: rows)) =
        csvHeader :: rows.map pad6 := by
    intro rows
    rw [rows_to_csv_text]
    rw [parse_cards_to_rows, parseCSV_encode (csvHeader :: rows.map pad6)
      (by
        intro r hrr
        rcases List.mem_cons.mp hrr with rfl | hrr
        · simp [csvHeader]
        · obtain ⟨x, _, rfl⟩ := List.mem_map.mp hrr
          exact pad6_ne_nil x)]
    simp only [List.isEmpty_cons, Bool.false_eq_true, if_false,
      List.drop_succ_cons, List.drop_zero, List.map_map]
    have hpp : (pad6 ∘ pad6) = pad6 := by
      funext x
      exact pad6_of_length_six (pad6 x) (pad6_length x)
    rw [hpp]
  refine ⟨main, fun r h => pad6_of_length_six r h, ?_⟩
  have h := main [["Math", "Algebra", "Q1", "He said \"hi\"", "", ""]]
  rw [h]
  simp only [List.map_cons, List.map_nil]
  rw [pad6_of_length_six _ (by decide)]

/-- Witness for C9 at concrete decks: a 6-field row with an embedded
double quote round-trips exactly, and a short row is padded while a long
row is truncated. -/
theorem export_roundtrip_witness :
    pad6 ["Math", "Algebra", "Q1", "He said \"hi\"", "", ""] =
      ["Math", "Algebra", "Q1", "He said \"hi\"", "", ""] ∧
    parse_cards_to_rows (rows_to_csv_text
      [csvHeader, ["T", "S", "Q"], ["A", "B", "C", "D", "E", "F", "G"]]) =
      [csvHeader, ["T", "S", "Q", "", "", ""],
        ["A", "B", "C", "D", "E", "F"]] := by
  constructor
  · exact export_roundtrip.2.1 _ (by decide)
  · have h := export_roundtrip.1 [["T", "S", "Q"],
      ["A", "B", "C", "D", "E", "F", "G"]]
    rw [h]
    decide

end Ankibot
